import Mathlib

/-!
Verification of the penny-platform creator-discovery backend against its
natural-language specification.

Each section embeds one component of the source tree as a shallow
embedding: pure Lean functions mirror the Python control flow, while
network and filesystem effects are abstracted as explicit inputs
(e.g. the vendor's snapshot status sequence, the upstream reranker's
response value).  The theorems at the end of the file settle the
specification claims against these embeddings.
-/

namespace PennyPlatform

/-! ## Shared list machinery

`pySortOnDesc` models Python's stable `list.sort(key=..., reverse=True)`
(as used for rerank scores, combined search scores and post timestamps):
an insertion sort that keeps earlier elements before later ones on key
ties, which is observably equal to any stable descending sort.
`pySortOnAsc` models the ascending `sorted(...)` used for medians.
-/

/-- `str.lower()` over the character data (ASCII case mapping; unicode
case folding is outside the modelled input range).  `String.toLower`
itself is avoided because its `mapAux` implementation does not reduce in
the kernel. -/
def strToLower (s : String) : String :=
  ⟨s.data.map Char.toLower⟩

/-- `str.startswith` over the character data (the built-in
`String.startsWith` does not reduce in the kernel either). -/
def strStartsWith (s p : String) : Bool :=
  p.data.isPrefixOf s.data

/-- `str.endswith` over the character data. -/
def strEndsWith (s p : String) : Bool :=
  p.data.isSuffixOf s.data

/-- `str.replace(pat, repl)`: replace every non-overlapping occurrence,
scanning left to right (the pattern is nonempty at every call site).
Structural recursion on a fuel argument — each step consumes at least
one character, so `fuel = s.length` suffices and the fuel guard is never
the returned branch. -/
def replaceFuelChars (pat repl : List Char) : Nat → List Char → List Char
  | 0, s => s
  | _ + 1, [] => []
  | fuel + 1, c :: rest =>
    if pat.isPrefixOf (c :: rest) ∧ pat ≠ [] then
      repl ++ replaceFuelChars pat repl fuel ((c :: rest).drop pat.length)
    else c :: replaceFuelChars pat repl fuel rest

def strReplace (s pat repl : String) : String :=
  ⟨replaceFuelChars pat.data repl.data s.data.length s.data⟩

/-- `str.split(",")`. -/
def splitCommaChars : List Char → List Char → List String
  | [], cur => [⟨cur.reverse⟩]
  | ',' :: rest, cur => (⟨cur.reverse⟩ : String) :: splitCommaChars rest []
  | c :: rest, cur => splitCommaChars rest (c :: cur)

def splitOnComma (s : String) : List String :=
  splitCommaChars s.data []

def insertOnDesc {α β : Type} [LinearOrder β] (key : α → β) (x : α) : List α → List α
  | [] => [x]
  | y :: ys => if key y ≤ key x then x :: y :: ys else y :: insertOnDesc key x ys

def pySortOnDesc {α β : Type} [LinearOrder β] (key : α → β) (l : List α) : List α :=
  l.foldr (insertOnDesc key) []

def insertOnAsc {α β : Type} [LinearOrder β] (key : α → β) (x : α) : List α → List α
  | [] => [x]
  | y :: ys => if key x ≤ key y then x :: y :: ys else y :: insertOnAsc key x ys

def pySortOnAsc {α β : Type} [LinearOrder β] (key : α → β) (l : List α) : List α :=
  l.foldr (insertOnAsc key) []

theorem perm_insertOnDesc {α β : Type} [LinearOrder β] (key : α → β) (x : α) (l : List α) :
    (insertOnDesc key x l).Perm (x :: l) := by
  induction l with
  | nil => simp [insertOnDesc]
  | cons y ys ih =>
    by_cases h : key y ≤ key x
    · simp [insertOnDesc, h]
    · simp only [insertOnDesc, h, if_false]
      exact ((ih.cons y).trans (List.Perm.swap x y ys))

theorem perm_pySortOnDesc {α β : Type} [LinearOrder β] (key : α → β) (l : List α) :
    (pySortOnDesc key l).Perm l := by
  induction l with
  | nil => simp [pySortOnDesc]
  | cons x xs ih =>
    have : pySortOnDesc key (x :: xs) = insertOnDesc key x (pySortOnDesc key xs) := rfl
    rw [this]
    exact (perm_insertOnDesc key x (pySortOnDesc key xs)).trans (ih.cons x)

theorem pairwise_insertOnDesc {α β : Type} [LinearOrder β] (key : α → β) (x : α) (l : List α)
    (h : List.Pairwise (fun a b => key b ≤ key a) l) :
    List.Pairwise (fun a b => key b ≤ key a) (insertOnDesc key x l) := by
  induction l with
  | nil => simp [insertOnDesc]
  | cons y ys ih =>
    rcases List.pairwise_cons.mp h with ⟨hy, hys⟩
    by_cases hxy : key y ≤ key x
    · simp only [insertOnDesc, if_pos hxy]
      refine List.pairwise_cons.mpr ⟨?_, h⟩
      intro b hb
      rcases List.mem_cons.mp hb with hb | hb
      · subst hb
        exact hxy
      · exact le_trans (hy b hb) hxy
    · simp only [insertOnDesc, if_neg hxy]
      refine List.pairwise_cons.mpr ⟨?_, ih hys⟩
      intro b hb
      have hmem := (perm_insertOnDesc key x ys).mem_iff.mp hb
      rcases List.mem_cons.mp hmem with hb' | hb'
      · subst hb'
        exact le_of_not_le hxy
      · exact hy b hb'

theorem sorted_pySortOnDesc {α β : Type} [LinearOrder β] (key : α → β) (l : List α) :
    List.Pairwise (fun a b => key b ≤ key a) (pySortOnDesc key l) := by
  induction l with
  | nil => simp [pySortOnDesc]
  | cons x xs ih => exact pairwise_insertOnDesc key x (pySortOnDesc key xs) ih

theorem perm_insertOnAsc {α β : Type} [LinearOrder β] (key : α → β) (x : α) (l : List α) :
    (insertOnAsc key x l).Perm (x :: l) := by
  induction l with
  | nil => simp [insertOnAsc]
  | cons y ys ih =>
    by_cases h : key x ≤ key y
    · simp [insertOnAsc, h]
    · simp only [insertOnAsc, h, if_false]
      exact ((ih.cons y).trans (List.Perm.swap x y ys))

theorem perm_pySortOnAsc {α β : Type} [LinearOrder β] (key : α → β) (l : List α) :
    (pySortOnAsc key l).Perm l := by
  induction l with
  | nil => simp [pySortOnAsc]
  | cons x xs ih =>
    have : pySortOnAsc key (x :: xs) = insertOnAsc key x (pySortOnAsc key xs) := rfl
    rw [this]
    exact (perm_insertOnAsc key x (pySortOnAsc key xs)).trans (ih.cons x)

theorem pairwise_insertOnAsc {α β : Type} [LinearOrder β] (key : α → β) (x : α) (l : List α)
    (h : List.Pairwise (fun a b => key a ≤ key b) l) :
    List.Pairwise (fun a b => key a ≤ key b) (insertOnAsc key x l) := by
  induction l with
  | nil => simp [insertOnAsc]
  | cons y ys ih =>
    rcases List.pairwise_cons.mp h with ⟨hy, hys⟩
    by_cases hxy : key x ≤ key y
    · simp only [insertOnAsc, if_pos hxy]
      refine List.pairwise_cons.mpr ⟨?_, h⟩
      intro b hb
      rcases List.mem_cons.mp hb with hb | hb
      · subst hb
        exact hxy
      · exact le_trans hxy (hy b hb)
    · simp only [insertOnAsc, if_neg hxy]
      refine List.pairwise_cons.mpr ⟨?_, ih hys⟩
      intro b hb
      have hmem := (perm_insertOnAsc key x ys).mem_iff.mp hb
      rcases List.mem_cons.mp hmem with hb' | hb'
      · subst hb'
        exact le_of_not_le hxy
      · exact hy b hb'

theorem sorted_pySortOnAsc {α β : Type} [LinearOrder β] (key : α → β) (l : List α) :
    List.Pairwise (fun a b => key a ≤ key b) (pySortOnAsc key l) := by
  induction l with
  | nil => simp [pySortOnAsc]
  | cons x xs ih => exact pairwise_insertOnAsc key x (pySortOnAsc key xs) ih

/-! ## Vendor refresh worker (services/brightdata/app/workers/image_refresh_worker.py
and app/core/brightdata_client.py)

The network boundary is abstracted: a chunk's snapshot lifecycle
(`BrightDataClient.refresh_profiles` = trigger → poll → download) is an
input of type `Except String (String × List ImageRefreshResult)`
(snapshot id plus the per-handle results that `build_payload` derives from
the downloaded rows), and the poll loop `wait_for_snapshot` is modelled
over the sequence of statuses the vendor reports.
-/

structure ImageRefreshResult where
  username : String
  success : Bool
  error : Option String
  profileImageUrl : Option String
deriving DecidableEq

structure RefreshSummary where
  total : Nat
  successful : Nat
  failed : Nat
deriving DecidableEq

/-- `summarise_results`: totals over the per-handle results. -/
def summariseResults (rs : List ImageRefreshResult) : RefreshSummary :=
  ⟨rs.length, (rs.filter (fun r => r.success)).length,
    rs.length - (rs.filter (fun r => r.success)).length⟩

/-- `BrightDataClient.wait_for_snapshot`: poll until the status is
`ready` (return) or `failed` (raise `RuntimeError`).  The argument is the
sequence of statuses returned by successive `get_snapshot_status` calls;
`none` models the source's unbounded polling loop never seeing a terminal
status. -/
def waitForSnapshot (snapshotId : String) : List String → Option (Except String Unit)
  | [] => none
  | s :: rest =>
    if s = "ready" then some (Except.ok ())
    else if s = "failed" then
      some (Except.error ("BrightData snapshot " ++ snapshotId ++ " failed"))
    else waitForSnapshot snapshotId rest

/-- `BrightDataClient.refresh_profiles` = trigger → wait → download; an
error from any step propagates (`raise`).  The trigger outcome and status
sequence are inputs; on success the snapshot id is returned (the download
result is carried separately by the worker model). -/
def clientRefreshOutcome (trigger : Except String String) (statuses : List String) :
    Option (Except String String) :=
  match trigger with
  | Except.error e => some (Except.error e)
  | Except.ok sid =>
    match waitForSnapshot sid statuses with
    | none => none
    | some (Except.error e) => some (Except.error e)
    | some (Except.ok ()) => some (Except.ok sid)

/-- The `as_completed` loop body of `ImageRefreshWorker.refresh_profiles`
(lines 76–98): each completed future either yields `(snapshot_id, results)`
or re-raises its exception at `future.result()`; results of successful
chunks are appended in completion order.  There is no `try`/`except`
around `future.result()`, so the first failed chunk reached aborts the
whole call. -/
def refreshAggregate :
    List (Except String (String × List ImageRefreshResult)) →
      Except String (List String × List ImageRefreshResult)
  | [] => Except.ok ([], [])
  | Except.error e :: _ => Except.error e
  | Except.ok (sid, rs) :: rest =>
    match refreshAggregate rest with
    | Except.error e => Except.error e
    | Except.ok (sids, allRs) => Except.ok (sid :: sids, rs ++ allRs)

structure WorkerOutput where
  snapshotIds : List String
  results : List ImageRefreshResult
  summary : RefreshSummary
deriving DecidableEq

/-- `ImageRefreshWorker.refresh_profiles`, with each chunk's snapshot
lifecycle abstracted as an input: aggregate the chunk outcomes (raising
if any chunk raised) and summarise. -/
def refreshProfilesWorker
    (chunks : List (Except String (String × List ImageRefreshResult))) :
    Except String WorkerOutput :=
  match refreshAggregate chunks with
  | Except.error e => Except.error e
  | Except.ok (sids, rs) => Except.ok ⟨sids, rs, summariseResults rs⟩

/-- The per-chunk results of the chunks in order, when all chunks
succeeded. -/
def okChunkResults
    (chunks : List (Except String (String × List ImageRefreshResult))) :
    List ImageRefreshResult :=
  (chunks.filterMap (fun c =>
    match c with
    | Except.ok p => some p.2
    | Except.error _ => none)).flatten

/-! ## Job event streaming (services/brightdata/app/services/image_refresh_service.py)

`stream_job_events` reads the job entry under the service lock: it copies
the current event history, decides whether the job is terminal, and only
for non-terminal jobs creates and registers a live subscriber queue.  The
returned iterator yields the history and, only when a queue was attached,
blocks on further live events until a `None` sentinel. -/

structure JobEvent where
  eventType : String
  timestamp : String
deriving DecidableEq

structure JobEntry where
  jobId : String
  status : String
  events : List JobEvent
deriving DecidableEq

def lookupJob (jobs : List (String × JobEntry)) (jobId : String) : Option JobEntry :=
  (jobs.find? (fun kv => kv.1 = jobId)).map (fun kv => kv.2)

def isTerminalStatus (s : String) : Bool :=
  s = "finished" || s = "failed"

structure StreamPlan where
  history : List JobEvent
  attachedLive : Bool
deriving DecidableEq

/-- `ImageRefreshService.stream_job_events` (lines 130–160), restricted to
the decisions taken under the lock: `history = list(entry.events)`,
`terminal = entry.status in ("finished", "failed")`, and a subscriber
queue is created and appended only when not terminal. -/
def streamJobEvents (jobs : List (String × JobEntry)) (jobId : String) :
    Option StreamPlan :=
  match lookupJob jobs jobId with
  | none => none
  | some e => some ⟨e.events, !isTerminalStatus e.status⟩

/-- Take events from the live feed until the `None` sentinel that
`_close_subscribers` enqueues. -/
def takeUntilSentinel : List (Option JobEvent) → List JobEvent
  | [] => []
  | none :: _ => []
  | some e :: rest => e :: takeUntilSentinel rest

/-- The sequence of events the async iterator yields: the history copy
first, then — only if a live queue was attached — the live feed up to the
close sentinel. -/
def iteratorOutput (plan : StreamPlan) (liveFeed : List (Option JobEvent)) :
    List JobEvent :=
  plan.history ++ (if plan.attachedLive then takeUntilSentinel liveFeed else [])

/-! ## Pipeline orchestrator (services/search/app/core/pipeline/orchestrator.py)

Only the fields consulted by the BrightData → LLM gating are modelled. -/

structure CreatorProfile where
  platform : String
  username : String
  profileUrl : String
deriving DecidableEq

/-- Modelled from the spec: `normalized_profile_key` lives in
`app/core/pipeline/utils.py`, which is absent from the source tree (only
its importers are present).  Spec §4.6: "Normalized-handle key.
`lowercase(platform + ':' + username)`, or if username absent, the
normalized profile_url." -/
def normalizedProfileKey (p : CreatorProfile) : String :=
  if p.username ≠ "" then strToLower (p.platform ++ ":" ++ p.username)
  else strToLower p.profileUrl

/-- `CreatorDiscoveryPipeline.run` lines 94–128 for `run_llm = true` (with
`business_fit_query` present): compute the profiles handed to the LLM
fit-scoring stage.  `none` means the stage is not invoked (the code
returns early on an empty survivor list); `some inputs` means
`LLMFitStage.run` is invoked on exactly `inputs`.  When `run_brightdata`
is set, survivors are the profiles whose normalized key is in the lowered
success-key set, and an empty key set leaves no survivors. -/
def llmStageInputs (runBrightdata : Bool) (profiles : List CreatorProfile)
    (successKeys : List String) : Option (List CreatorProfile) :=
  let llmInputs :=
    if runBrightdata then
      let keySet := successKeys.map strToLower
      if keySet ≠ [] then
        profiles.filter (fun p => keySet.contains (normalizedProfileKey p))
      else []
    else profiles
  if llmInputs.isEmpty then none else some llmInputs

/-! ## Vector search aggregation (services/search/app/core/vector_search.py)

Scores are modelled as exact rationals; the source's floats satisfy the
spec's 1e-6 tolerance wherever the rational model satisfies exact
equality.  An entry is one value of the `entries` dict keyed by
`lance_db_id` after `_accumulate_dense` / `_accumulate_lexical`. -/

structure SearchWeights where
  keyword : ℚ
  profile : ℚ
  content : ℚ
deriving DecidableEq

/-- `SearchWeights.normalised`. -/
def SearchWeights.normalised (w : SearchWeights) : SearchWeights :=
  let total := w.keyword + w.profile + w.content
  if total ≤ 0 then ⟨0, 1/2, 1/2⟩
  else ⟨w.keyword / total, w.profile / total, w.content / total⟩

/-- The hybrid-mode default resolved in `VectorSearchEngine.search`:
`SearchWeights(keyword=0.35, profile=0.4, content=0.25)`. -/
def hybridDefaultWeights : SearchWeights := ⟨35/100, 40/100, 25/100⟩

structure FacetEntry where
  lanceId : String
  profileSimilarity : ℚ
  postsSimilarity : ℚ
  lexicalScoreRaw : ℚ
deriving DecidableEq

structure SearchRecord where
  lanceId : String
  profileSimilarity : ℚ
  postsSimilarity : ℚ
  bm25FtsScore : ℚ
  keywordSimilarity : ℚ
  combinedScore : ℚ
deriving DecidableEq

/-- `max((entry.get("lexical_score_raw", 0.0) for ...), default=0.0)`. -/
def maxLexical : List FacetEntry → ℚ
  | [] => 0
  | e :: rest => rest.foldl (fun acc x => max acc x.lexicalScoreRaw) e.lexicalScoreRaw

/-- `VectorSearchEngine._finalise_entries` (lines 509–566), keeping the
score-bearing record fields: normalize the lexical score against the
maximum observed, build each record with
`combined = w.profile*profile_sim + w.content*posts_sim + w.keyword*lexical_norm`,
drop zero-lexical entries in lexical-only mode, sort by combined score
descending (stable) and truncate to `max 1 limit`. -/
def finaliseEntries (entries : List FacetEntry) (w : SearchWeights) (limit : Nat)
    (lexicalOnly : Bool) : List SearchRecord :=
  if entries.isEmpty then []
  else
    let maxLex := maxLexical entries
    let records := entries.filterMap (fun e =>
      let lexicalNorm := if 0 < maxLex then e.lexicalScoreRaw / maxLex else 0
      if lexicalOnly && decide (e.lexicalScoreRaw ≤ 0) then none
      else
        some ⟨e.lanceId, e.profileSimilarity, e.postsSimilarity, e.lexicalScoreRaw,
          lexicalNorm,
          w.profile * e.profileSimilarity + w.content * e.postsSimilarity +
            w.keyword * lexicalNorm⟩)
    (pySortOnDesc (fun r => r.combinedScore) records).take (max 1 limit)

/-! ## Reranker proxy (services/brightdata/app/core/rerank.py and
app/api/v1/rerank.py)

The upstream endpoint's JSON body is modelled by `PyVal` (numbers are
rationals — Python ints and floats both land in `num`).  Coercion
failures (`int(...)`/`float(...)` raising) and Python attribute errors in
`_parse_response` are modelled by `Except.error`, which the endpoint maps
to an HTTP 500 just as its broad `except` clause does. -/

inductive PyVal where
  | num (q : ℚ)
  | str (s : String)
  | listVal (l : List PyVal)
  | dict (fields : List (String × PyVal))
  | nullVal

/-- `d.get(k)` / `k in d`: first binding wins (Python dicts cannot hold
duplicate keys, so a well-formed model has none). -/
def dictGet (fields : List (String × PyVal)) (k : String) : Option PyVal :=
  (fields.find? (fun kv => kv.1 = k)).map (fun kv => kv.2)

/-- Truncation toward zero, as `int(float_value)` does. -/
def truncQ (q : ℚ) : Int :=
  if 0 ≤ q then q.floor else -((-q).floor)

/-- Parse a decimal literal (optional sign, digits, optional fractional
part), the shape `float(str)` accepts after stripping; exotic float
syntax (exponents, `inf`, `nan`) is outside the modelled input range. -/
def parseDecimalDigits (ds : List Char) (acc : Nat) : Option Nat :=
  match ds with
  | [] => some acc
  | c :: rest =>
    if c.isDigit then parseDecimalDigits rest (acc * 10 + (c.toNat - 48)) else none

def parseFracDigits (ds : List Char) (num : Nat) (den : Nat) : Option (Nat × Nat) :=
  match ds with
  | [] => some (num, den)
  | c :: rest =>
    if c.isDigit then parseFracDigits rest (num * 10 + (c.toNat - 48)) (den * 10)
    else none

def parseUnsignedQ (cs : List Char) : Option ℚ :=
  let intPart := cs.takeWhile (fun c => c.isDigit)
  let rest := cs.dropWhile (fun c => c.isDigit)
  match rest with
  | [] =>
    if intPart.isEmpty then none
    else (parseDecimalDigits intPart 0).map (fun n => (n : ℚ))
  | '.' :: fracCs =>
    if fracCs.all (fun c => c.isDigit) ∧ (intPart ≠ [] ∨ fracCs ≠ []) then
      match parseDecimalDigits intPart 0, parseFracDigits fracCs 0 1 with
      | some n, some (fn, fd) => some ((n : ℚ) + (fn : ℚ) / (fd : ℚ))
      | _, _ => none
    else none
  | _ => none

def parseFloatQ (s : String) : Option ℚ :=
  match s.data with
  | '-' :: rest => (parseUnsignedQ rest).map (fun q => -q)
  | '+' :: rest => parseUnsignedQ rest
  | cs => parseUnsignedQ cs

/-- `int(value)` on a response element: truncate numbers, parse integral
strings; anything else raises. -/
def pyToInt (v : PyVal) : Except String Int :=
  match v with
  | PyVal.num q => Except.ok (truncQ q)
  | PyVal.str s =>
    match (parseFloatQ s).bind (fun q => if q.den = 1 then some q.num else none) with
    | some n => Except.ok n
    | none => Except.error "int() argument is not an integer"
  | _ => Except.error "int() argument has wrong type"

/-- `float(value)` on a response element. -/
def pyToFloat (v : PyVal) : Except String ℚ :=
  match v with
  | PyVal.num q => Except.ok q
  | PyVal.str s =>
    match parseFloatQ s with
    | some q => Except.ok q
    | none => Except.error "could not convert string to float"
  | _ => Except.error "float() argument has wrong type"

def isNumVal : PyVal → Bool
  | PyVal.num _ => true
  | _ => false

/-- First of the keys `results`, `data`, `scores`, `output` present in the
dict, as `_parse_response` scans them. -/
def firstPresentKey (fields : List (String × PyVal)) : List String → Option PyVal
  | [] => none
  | k :: ks =>
    match dictGet fields k with
    | some v => some v
    | none => firstPresentKey fields ks

/-- One `{index, score}` object: `(int(item.get("index", idx)),
float(item.get("score", 0.0)))`; a non-dict element raises
(`item.get` on it).  `idx` is the element's position. -/
def parseObjEntry (idx : Nat) (item : PyVal) : Except String (Int × ℚ) :=
  match item with
  | PyVal.dict fs => do
    let i ← pyToInt ((dictGet fs "index").getD (PyVal.num (idx : ℚ)))
    let s ← pyToFloat ((dictGet fs "score").getD (PyVal.num 0))
    pure (i, s)
  | _ => Except.error "item.get on non-dict"

/-- One `[index, score]` pair: unpacking a non-length-2 element raises. -/
def parsePairEntry (item : PyVal) : Except String (Int × ℚ) :=
  match item with
  | PyVal.listVal [a, b] => do
    let i ← pyToInt a
    let s ← pyToFloat b
    pure (i, s)
  | _ => Except.error "cannot unpack rerank pair"

def mapWithIndex (f : Nat → PyVal → Except String (Int × ℚ)) :
    Nat → List PyVal → Except String (List (Int × ℚ))
  | _, [] => Except.ok []
  | idx, x :: xs => do
    let h ← f idx x
    let t ← mapWithIndex f (idx + 1) xs
    pure (h :: t)

/-- The `candidates` selection of `_parse_response`: for a dict envelope
the first of the keys `results`/`data`/`scores`/`output` present
(`None` when none is), otherwise the payload itself. -/
def extractCandidates (data : PyVal) : Option PyVal :=
  match data with
  | PyVal.dict fs => firstPresentKey fs ["results", "data", "scores", "output"]
  | _ => some data

/-- The `enumerate(candidates)` fallback for a bare list of scores. -/
def enumScores (items : List PyVal) : List (Int × ℚ) :=
  items.enum.map (fun p =>
    ((p.1 : Int), match p.2 with | PyVal.num q => q | _ => 0))

/-- The shape dispatch of `_parse_response`: `{index, score}` objects,
`[index, score]` pairs, a bare list of numbers (enumerated), or nothing
recognized (`ranking` stays `[]`). -/
def parseCandidates : Option PyVal → Except String (List (Int × ℚ))
  | some (PyVal.listVal items) =>
    (match items with
    | PyVal.dict fs :: _ =>
      if (dictGet fs "score").isSome then mapWithIndex parseObjEntry 0 items
      else if items.all isNumVal then Except.ok (enumScores items)
      else Except.ok []
    | PyVal.listVal pair :: _ =>
      if pair.length = 2 then items.mapM parsePairEntry
      else if items.all isNumVal then Except.ok (enumScores items)
      else Except.ok []
    | _ =>
      if items.all isNumVal then Except.ok (enumScores items)
      else Except.ok [])
  | _ => Except.ok []

/-- `DeepInfraReranker._parse_response` (lines 64–86): pick the candidate
list out of the envelope, normalize each accepted shape to `(index,
score)` pairs, and sort descending by score
(`ranking.sort(key=..., reverse=True)`). -/
def parseResponse (data : PyVal) : Except String (List (Int × ℚ)) :=
  match parseCandidates (extractCandidates data) with
  | Except.error e => Except.error e
  | Except.ok ranking => Except.ok (pySortOnDesc (fun p => p.2) ranking)

/-- `DeepInfraReranker.rerank_async`: empty query or empty document list
short-circuits to `[]`; otherwise the upstream response is parsed. -/
def rerankAsync (upstream : List String → PyVal) (query : String)
    (docs : List String) : Except String (List (Int × ℚ)) :=
  if query = "" ∨ docs = [] then Except.ok []
  else parseResponse (upstream docs)

/-- `docs = request.documents[: request.top_k]` when `top_k` is set
(`top_k : Optional[int] = Field(default=None, ge=1)`; `0` models the
absent value, so the truthiness test is `topK ≠ 0`). -/
def truncatedDocs (documents : List String) (topK : Nat) : List String :=
  if topK ≠ 0 then documents.take topK else documents

structure RerankResponse where
  ranking : List (Int × ℚ)
  topK : Nat
  count : Nat
deriving DecidableEq

/-- `rerank_documents` (app/api/v1/rerank.py lines 14–37): truncate the
documents to `top_k`, call the reranker on the truncated list, and wrap
the ranking; upstream/parse failures surface as HTTP errors
(`Except.error`). -/
def rerankDocuments (upstream : List String → PyVal) (query : String)
    (documents : List String) (topK : Nat) : Except String RerankResponse :=
  let docs := truncatedDocs documents topK
  match rerankAsync upstream query docs with
  | Except.error e => Except.error e
  | Except.ok ranking =>
    Except.ok ⟨ranking, if topK ≠ 0 then topK else docs.length, ranking.length⟩

/-! ## Record normalisation (services/brightdata/app/utils/normalizers.py)

Raw JSON records are modelled by `PyVal`.  Character classes follow the
ASCII fragment of Python's `\s` / `\w` (unicode letters are outside the
modelled input range).  `_decode_text` escapes every backslash and quote
before `json.loads`, so the decode round-trips the string unchanged and
the function reduces to `strip` + whitespace collapse. -/

def isWsChar (c : Char) : Bool :=
  c = ' ' || c = '\t' || c = '\n' || c = '\r' || c = Char.ofNat 11 || c = Char.ofNat 12

def isWordChar (c : Char) : Bool :=
  c.isAlphanum || c = '_'

/-- Case-insensitive character comparison, as the `(?i)` regex flag. -/
def charCI (a b : Char) : Bool :=
  a.toLower = b.toLower

/-- `re.sub(r"\s+", " ", s)`: collapse each whitespace run to one space. -/
def collapseWsChars : Bool → List Char → List Char
  | _, [] => []
  | inRun, c :: rest =>
    if isWsChar c then
      if inRun then collapseWsChars true rest
      else ' ' :: collapseWsChars true rest
    else c :: collapseWsChars false rest

def collapseWs (s : String) : String :=
  ⟨collapseWsChars false s.data⟩

/-- `str.strip()` (ASCII whitespace). -/
def stripWsChars (cs : List Char) : List Char :=
  ((cs.dropWhile isWsChar).reverse.dropWhile isWsChar).reverse

def stripWs (s : String) : String :=
  ⟨stripWsChars s.data⟩

/-- `_decode_text` on a string: the escape/`json.loads` round trip is the
identity, then `strip` then collapse. -/
def decodeText (s : String) : String :=
  collapseWs (stripWs s)

/-! ### The per-post hashtag regex, source line 404

The source builds the pattern from the RAW f-string
`rf"(?i)(?<!\\w)#\s*{re.escape(tag)}\b"`: the doubled backslash survives
into the pattern text, so the compiled lookbehind is `(?<!\\w)` — it
blocks a match only when the two characters immediately before the `#`
are the LITERAL backslash followed by `w` (case-insensitive under
`(?i)`), not when the `#` follows a word character.

`consumeCI` consumes the tag case-insensitively, threading the character
just before the current position so it can report the last TWO text
characters consumed (the trailing `\b` needs the last; the literal
`\\w` lookbehind at the next scan position needs both).
`matchAfterHash` implements the greedy-with-backtracking `\s*`.  Tags in
`hashtags` are always nonempty (the source only appends truthy
`clean_tag`s), and `consumeCI _ [] _` is `none`, so the empty-tag
pattern never matches in the model. -/

def consumeCI : Char → List Char → List Char → Option (Char × Char × List Char)
  | _, [], _ => none
  | p, [t], c :: cs => if charCI t c then some (p, c, cs) else none
  | _, t :: t2 :: ts, c :: cs =>
    if charCI t c then consumeCI c (t2 :: ts) cs else none
  | _, _ :: _, [] => none

/-- Try the (escaped, literal) tag at the current position, then check the
trailing `\b`: a boundary holds iff the last consumed character and the
following character differ in word-ness (end of input counts as
non-word). -/
def boundaryAfter (lastC : Char) (rest : List Char) : Bool :=
  match rest with
  | [] => isWordChar lastC
  | n :: _ => isWordChar lastC != isWordChar n

def matchTagHere (prevC : Char) (tag : List Char) (s : List Char) :
    Option (Char × Char × List Char) :=
  match consumeCI prevC tag s with
  | none => none
  | some (penult, lastC, rest) =>
    if boundaryAfter lastC rest then some (penult, lastC, rest) else none

/-- Greedy `\s*` then the tag: consume as much whitespace as possible,
backtracking one character at a time; `prevC` is the original character
just before the current position (initially the `#`). -/
def matchAfterHash (prevC : Char) (tag : List Char) :
    List Char → Option (Char × Char × List Char)
  | [] => matchTagHere prevC tag []
  | c :: rest =>
    if isWsChar c then
      match matchAfterHash c tag rest with
      | some r => some r
      | none => matchTagHere prevC tag (c :: rest)
    else matchTagHere prevC tag (c :: rest)

/-- The compiled lookbehind `(?<!\\w)`: the match is blocked iff the two
characters before the `#` are the literal backslash then `w`/`W`
(`(?i)` makes the literal `w` case-insensitive).  With fewer than two
preceding characters a two-character lookbehind cannot match, so the
negative lookbehind succeeds. -/
def lookbehindBlocks : Option Char → Option Char → Bool
  | some a, some b => a = '\\' && (b = 'w' || b = 'W')
  | _, _ => false

theorem length_consumeCI (tag : List Char) :
    ∀ p s p2 lc r, consumeCI p tag s = some (p2, lc, r) → r.length < s.length := by
  induction tag with
  | nil => intro p s p2 lc r h; simp [consumeCI] at h
  | cons t ts ih =>
    intro p s p2 lc r h
    cases ts with
    | nil =>
      cases s with
      | nil => simp [consumeCI] at h
      | cons c cs =>
        by_cases hci : charCI t c
        · simp [consumeCI, hci] at h
          rcases h with ⟨h1, h2, h3⟩
          subst h3
          simp
        · simp [consumeCI, hci] at h
    | cons t2 ts2 =>
      cases s with
      | nil => simp [consumeCI] at h
      | cons c cs =>
        by_cases hci : charCI t c
        · simp only [consumeCI, hci, if_pos] at h
          have := ih c cs p2 lc r h
          exact Nat.lt_trans this (Nat.lt_succ_self _)
        · simp [consumeCI, hci] at h

theorem length_matchTagHere (p : Char) (tag s : List Char) (p2 lc : Char) (r : List Char)
    (h : matchTagHere p tag s = some (p2, lc, r)) : r.length < s.length := by
  unfold matchTagHere at h
  cases hc : consumeCI p tag s with
  | none => rw [hc] at h; simp at h
  | some q =>
    rw [hc] at h
    rcases q with ⟨p2', lc', r'⟩
    dsimp only at h
    by_cases hok : boundaryAfter lc' r' = true
    · rw [if_pos hok] at h
      cases h
      exact length_consumeCI tag p s _ _ _ hc
    · rw [if_neg hok] at h
      simp at h

theorem length_matchAfterHash (tag : List Char) :
    ∀ s p p2 lc r, matchAfterHash p tag s = some (p2, lc, r) → r.length < s.length := by
  intro s
  induction s with
  | nil =>
    intro p p2 lc r h
    simp only [matchAfterHash] at h
    exact absurd (length_matchTagHere p tag [] p2 lc r h) (by simp)
  | cons c cs ih =>
    intro p p2 lc r h
    simp only [matchAfterHash] at h
    by_cases hws : isWsChar c = true
    · rw [if_pos hws] at h
      cases hm : matchAfterHash c tag cs with
      | some q =>
        rw [hm] at h
        rcases q with ⟨p2', lc', r'⟩
        cases h
        exact Nat.lt_trans (ih c p2 lc r hm) (Nat.lt_succ_self _)
      | none =>
        rw [hm] at h
        exact length_matchTagHere p tag (c :: cs) p2 lc r h
    · rw [if_neg hws] at h
      exact length_matchTagHere p tag (c :: cs) p2 lc r h

/-- One pass of `pattern.sub("", caption)`: scan left to right, removing
each non-overlapping match of `(?<!\\w)#\s*tag\b`; the lookbehind always
refers to the two previously consumed characters of the *original*
string.  Structural recursion on fuel: every step consumes at least one
input character, so the invariant `cs.length ≤ fuel` holds throughout a
scan started with `fuel = cs.length` and the fuel-exhausted branch only
ever returns the already-empty remainder. -/
def subTagFuel (tag : List Char) : Nat → Option Char → Option Char → List Char → List Char
  | 0, _, _, cs => cs
  | _ + 1, _, _, [] => []
  | fuel + 1, prev2, prev1, c :: rest =>
    if c = '#' && !lookbehindBlocks prev2 prev1 then
      match matchAfterHash c tag rest with
      | some (penult, lastC, rest2) => subTagFuel tag fuel (some penult) (some lastC) rest2
      | none => c :: subTagFuel tag fuel prev1 (some c) rest
    else c :: subTagFuel tag fuel prev1 (some c) rest

def subTag (tag : String) (s : String) : String :=
  ⟨subTagFuel tag.data s.data.length none none s.data⟩

/-- Does the string contain a match of `(?<!\\w)#\s*tag\b` at any
position?  (Same lookbehind threading as `subTagFuel`.) -/
def containsTagMatchChars (tag : List Char) : Option Char → Option Char → List Char → Bool
  | _, _, [] => false
  | prev2, prev1, c :: rest =>
    (c = '#' && !lookbehindBlocks prev2 prev1 && (matchAfterHash c tag rest).isSome) ||
      containsTagMatchChars tag prev1 (some c) rest

def containsTagMatch (tag s : String) : Bool :=
  containsTagMatchChars tag.data none none s.data

/-- Lines 401–409 of `_normalize_posts`: strip each hashtag pattern from
the caption, then collapse whitespace and strip; with no hashtags only
collapse-and-strip; an empty caption is left alone. -/
def cleanCaption (caption : String) (tags : List String) : String :=
  if caption ≠ "" ∧ tags ≠ [] then
    stripWs (collapseWs (tags.foldl (fun acc t => subTag t acc) caption))
  else if caption ≠ "" then stripWs (collapseWs caption)
  else caption

/-! ### `_normalize_posts` field extraction -/

/-- Python truthiness of a JSON value. -/
def pyTruthy : PyVal → Bool
  | PyVal.num q => q ≠ 0
  | PyVal.str s => s ≠ ""
  | PyVal.listVal l => !l.isEmpty
  | PyVal.dict fs => !fs.isEmpty
  | PyVal.nullVal => false

/-- `value not in (None, "", [])` — the emptiness test of `_first` and
`_to_int`. -/
def notEmptyVal : PyVal → Bool
  | PyVal.nullVal => false
  | PyVal.str s => s ≠ ""
  | PyVal.listVal l => !l.isEmpty
  | _ => true

/-- `_first(item, *keys)`: the first key present whose value is not
`None`/`""`/`[]`. -/
def firstNonEmptyKey (fields : List (String × PyVal)) : List String → Option PyVal
  | [] => none
  | k :: ks =>
    match dictGet fields k with
    | some v => if notEmptyVal v then some v else firstNonEmptyKey fields ks
    | none => firstNonEmptyKey fields ks

/-- `_to_int(value)`: `int(float(value))`, `None` on failure; lists,
dicts and unparseable strings raise inside the `try` and yield `None`. -/
def pyToIntOpt : Option PyVal → Option Int
  | none => none
  | some v =>
    if !notEmptyVal v then none
    else
      match v with
      | PyVal.num q => some (truncQ q)
      | PyVal.str s => (parseFloatQ (stripWs s)).map truncQ
      | _ => none

/-- `_to_list(value)` restricted to the modelled input range: lists pass
through, `None`/`""` give `None`, and strings fall back to the
comma-split branch (JSON-encoded list strings are outside the modelled
range). -/
def pyToListOpt : Option PyVal → Option (List PyVal)
  | none => none
  | some PyVal.nullVal => none
  | some (PyVal.listVal l) => some l
  | some (PyVal.str s) =>
    if s = "" then none
    else
      let parts := ((splitOnComma s).map stripWs).filter (fun p => p ≠ "")
      if parts.isEmpty then none else some (parts.map PyVal.str)
  | some _ => none

/-- The hashtag loop: keep nonempty stripped strings, drop one leading
`#`, keep the tag only if something remains. -/
def parseHashtags (raw : Option (List PyVal)) : List String :=
  match raw with
  | none => []
  | some l =>
    l.filterMap (fun t =>
      match t with
      | PyVal.str s =>
        if stripWs s ≠ "" then
          let ct := stripWs s
          let ct2 := if strStartsWith ct "#" then ct.drop 1 else ct
          if ct2 ≠ "" then some ct2 else none
        else none
      | _ => none)

def captionKeys : List String := ["caption", "desc", "title", "text", "description"]
def likeKeys : List String := ["likes", "like_count", "diggCount", "diggcount", "collectCount"]
def favoriteKeys : List String := ["favorites_count", "favoriteCount", "collectCount"]
def commentKeys : List String := ["comments", "comment_count", "commentCount", "commentcount"]
def shareKeys : List String := ["share_count", "shareCount", "forwardCount"]
def viewKeys : List String := ["view_count", "viewCount", "playCount", "playcount"]
def urlKeys : List String := ["url", "videoUrl", "video_url", "share_url", "permalink", "post_url"]
def mediaTypeKeys : List String := ["content_type", "media_type", "type", "post_type"]
def timestampKeys : List String := ["datetime", "createTime", "create_time", "create_date", "published_at"]
def durationKeys : List String := ["duration", "videoDuration", "video_duration"]
def hashtagKeys : List String := ["hashtags", "post_hashtags"]
def thumbnailKeys : List String := ["image_url", "thumbnail_url", "thumb_url", "cover_image"]
def postIdKeys : List String := ["id", "post_id", "aweme_id", "video_id"]

/-- `caption = _first(item, caption-keys) or ""`, decoded when it is a
string (non-string truthy captions are left as-is; the later regex sub
would raise a `TypeError` on them, which is outside the modelled input
range). -/
def decodedCaptionOf (item : List (String × PyVal)) : PyVal :=
  match firstNonEmptyKey item captionKeys with
  | none => PyVal.str ""
  | some v =>
    if pyTruthy v then
      match v with
      | PyVal.str s => PyVal.str (decodeText s)
      | other => other
    else PyVal.str ""

/-- `media_type = _first(item, media-keys) or ("video" if tiktok else "image")`. -/
def mediaTypeOf (platform : String) (item : List (String × PyVal)) : PyVal :=
  let fallback := PyVal.str (if platform = "tiktok" then "video" else "image")
  match firstNonEmptyKey item mediaTypeKeys with
  | none => fallback
  | some v => if pyTruthy v then v else fallback

/-- `item.get("location") or item.get("place") or item.get("location_name")`. -/
def locationChain (item : List (String × PyVal)) : PyVal :=
  let a := (dictGet item "location").getD PyVal.nullVal
  if pyTruthy a then a
  else
    let b := (dictGet item "place").getD PyVal.nullVal
    if pyTruthy b then b
    else (dictGet item "location_name").getD PyVal.nullVal

/-- `_decode_text(_first(loc, "name", "title", "short_name") or "")`. -/
def decodeLocName (fs : List (String × PyVal)) : String :=
  match firstNonEmptyKey fs ["name", "title", "short_name"] with
  | none => ""
  | some v =>
    if pyTruthy v then
      match v with
      | PyVal.str s => decodeText s
      | _ => ""
    else ""

/-- The instagram-only location handling. -/
def locationNameOf (platform : String) (item : List (String × PyVal)) : String :=
  if platform = "instagram" then
    match locationChain item with
    | PyVal.dict fs => decodeLocName fs
    | PyVal.str s => decodeText s
    | PyVal.listVal (PyVal.dict fs :: _) => decodeLocName fs
    | _ => ""
  else ""

structure PostRecord where
  postId : Option PyVal
  caption : PyVal
  hashtags : List String
  likeCount : Option Int
  commentCount : Option Int
  shareCount : Option Int
  viewCount : Option Int
  favoriteCount : Option Int
  url : Option PyVal
  mediaType : PyVal
  timestamp : Option PyVal
  durationVal : Option PyVal
  thumbnailUrl : Option PyVal
  locationName : String

/-- The body of the `for item in entries` loop of `_normalize_posts`
(the `extra` passthrough mapping, which no claim touches, is omitted). -/
def normalizeOnePost (platform : String) (item : List (String × PyVal)) : PostRecord :=
  let hashtags := parseHashtags (pyToListOpt (firstNonEmptyKey item hashtagKeys))
  let caption :=
    match decodedCaptionOf item with
    | PyVal.str s => PyVal.str (cleanCaption s hashtags)
    | other => other
  { postId := firstNonEmptyKey item postIdKeys
    caption := caption
    hashtags := hashtags
    likeCount := pyToIntOpt (firstNonEmptyKey item likeKeys)
    commentCount := pyToIntOpt (firstNonEmptyKey item commentKeys)
    shareCount := pyToIntOpt (firstNonEmptyKey item shareKeys)
    viewCount := pyToIntOpt (firstNonEmptyKey item viewKeys)
    favoriteCount := pyToIntOpt (firstNonEmptyKey item favoriteKeys)
    url := firstNonEmptyKey item urlKeys
    mediaType := mediaTypeOf platform item
    timestamp := firstNonEmptyKey item timestampKeys
    durationVal := firstNonEmptyKey item durationKeys
    thumbnailUrl := firstNonEmptyKey item thumbnailKeys
    locationName := locationNameOf platform item }

/-- The caption text of a normalized post (captions are strings
throughout the modelled input range). -/
def captionText (p : PostRecord) : String :=
  match p.caption with
  | PyVal.str s => s
  | _ => ""

/-- `_normalize_posts`: keep exactly the dict elements, each mapped by the
loop body, in input order; a non-list input yields no posts (string
inputs are JSON-decoded by the source first, which is outside the
model).  The source returns the `json.dumps` of this list; the JSON
round trip into `_compute_post_statistics` is the identity on these
records, so the list itself is the model. -/
def normalizePosts (platform : String) (entries : PyVal) : List PostRecord :=
  match entries with
  | PyVal.listVal l =>
    l.filterMap (fun e =>
      match e with
      | PyVal.dict item => some (normalizeOnePost platform item)
      | _ => none)
  | _ => []

/-! ### `_compute_post_statistics`

Timestamps: `_parse_timestamp` accepts ISO strings
(`datetime.fromisoformat` after mapping a trailing `Z` to `+00:00`, with
`strptime` fallbacks that are subsets of the same shapes).  The model
parses naive `YYYY-MM-DD[(T| )HH:MM[:SS[.ffffff]]]` timestamps, ignoring
a trailing `Z`; offset-bearing timestamps (and the `TypeError` Python
raises when sorting aware and naive datetimes together) are outside the
modelled input range.  The parsed key is a mixed-radix integer whose
order agrees with datetime order. -/

def twoDigits (a b : Char) : Option Nat :=
  if a.isDigit && b.isDigit then some ((a.toNat - 48) * 10 + (b.toNat - 48)) else none

def fracMicro (ds : List Char) : Option Nat :=
  if ds ≠ [] ∧ ds.all Char.isDigit ∧ ds.length ≤ 6 then
    (parseDecimalDigits ds 0).map (fun n => n * 10 ^ (6 - ds.length))
  else none

def mkTsKey (y mo d h mi s micro : Nat) : Int :=
  ((((((y * 13 + mo) * 32 + d) * 24 + h) * 60 + mi) * 60 + s) * 1000000 + micro : Nat)

def parseTimeTail (y mo d : Nat) : List Char → Option Int
  | [] => some (mkTsKey y mo d 0 0 0 0)
  | sep :: h1 :: h2 :: ':' :: m1 :: m2 :: rest =>
    if (sep = 'T' || sep = ' ') then
      match twoDigits h1 h2, twoDigits m1 m2 with
      | some h, some mi =>
        if h < 24 ∧ mi < 60 then
          match rest with
          | [] => some (mkTsKey y mo d h mi 0 0)
          | ':' :: s1 :: s2 :: rest2 =>
            match twoDigits s1 s2 with
            | some s =>
              if s < 60 then
                match rest2 with
                | [] => some (mkTsKey y mo d h mi s 0)
                | '.' :: fr => (fracMicro fr).map (fun micro => mkTsKey y mo d h mi s micro)
                | _ => none
              else none
            | none => none
          | _ => none
        else none
      | _, _ => none
    else none
  | _ => none

def parseTsChars : List Char → Option Int
  | y1 :: y2 :: y3 :: y4 :: '-' :: m1 :: m2 :: '-' :: d1 :: d2 :: rest =>
    if [y1, y2, y3, y4].all Char.isDigit then
      match parseDecimalDigits [y1, y2, y3, y4] 0, twoDigits m1 m2, twoDigits d1 d2 with
      | some y, some mo, some d =>
        -- month/day range checks (finer per-month day validation, which
        -- only affects which inputs are rejected, is not modelled)
        if 1 ≤ mo ∧ mo ≤ 12 ∧ 1 ≤ d ∧ d ≤ 31 then parseTimeTail y mo d rest else none
      | _, _, _ => none
    else none
  | _ => none

/-- `_parse_timestamp(value)`: only nonempty strings parse. -/
def parseTsVal : Option PyVal → Option Int
  | some (PyVal.str s) =>
    let raw := stripWs s
    if raw = "" then none
    else
      let cs := if strEndsWith raw "Z" then raw.data.dropLast else raw.data
      parseTsChars cs
  | _ => none

/-- `_is_video_type`. -/
def containsSub (hay needle : List Char) : Bool :=
  match hay with
  | [] => needle.isEmpty
  | _ :: rest => needle.isPrefixOf hay || containsSub rest needle

def isVideoType (mt : String) : Bool :=
  if mt = "" then false
  else
    let lowered := strToLower mt
    if containsSub lowered.data "video".data || containsSub lowered.data "reel".data then true
    else lowered = "reel" || lowered = "video" || lowered = "graphvideo" || lowered = "igtv"

def postIsReelLike (p : PostRecord) : Bool :=
  match p.mediaType with
  | PyVal.str s => isVideoType s
  | _ => false

/-- `statistics.median`: middle element for odd length, mean of the two
middle elements for even length. -/
def medianQ (values : List Int) : Option ℚ :=
  match values with
  | [] => none
  | _ =>
    let sorted := pySortOnAsc (fun x => x) values
    let n := values.length
    if n % 2 = 1 then (sorted.get? (n / 2)).map (fun v => (v : ℚ))
    else
      match sorted.get? (n / 2 - 1), sorted.get? (n / 2) with
      | some a, some b => some (((a : ℚ) + (b : ℚ)) / 2)
      | _, _ => none

def taggedPosts (posts : List PostRecord) : List (PostRecord × Option Int) :=
  posts.map (fun p => (p, parseTsVal p.timestamp))

/-- The ordered window the statistics are computed over: posts with a
parseable timestamp sorted descending (stable), then the rest in input
order (`without_timestamp.sort(key=lambda item: item[0])` is the identity
on the enumeration order), truncated to 10. -/
def statsWindow (posts : List PostRecord) : List PostRecord :=
  let tagged := taggedPosts posts
  let withTs := tagged.filter (fun x => x.2.isSome)
  let withoutTs := tagged.filter (fun x => x.2.isNone)
  (((pySortOnDesc (fun x => x.2.getD 0) withTs).map (fun x => x.1)) ++
    withoutTs.map (fun x => x.1)).take 10

structure PostStatistics where
  reelPostShareLast10 : Option ℚ
  medianViewCountLast10 : Option ℚ
  medianLikeCountLast10 : Option ℚ
  medianCommentCountLast10 : Option ℚ
deriving DecidableEq

/-- `_compute_post_statistics` over the normalized post list (the JSON
round trip is the identity on these records).  The source renders the
values as 3-decimal strings (`""` for absent); the exact rationals are
modelled. -/
def computePostStatistics (posts : List PostRecord) : PostStatistics :=
  let w := statsWindow posts
  let total := w.length
  let reelLike := (w.filter postIsReelLike).length
  ⟨if total = 0 then none else some ((reelLike : ℚ) / (total : ℚ)),
    medianQ (w.filterMap (fun p => p.viewCount)),
    medianQ (w.filterMap (fun p => p.likeCount)),
    medianQ (w.filterMap (fun p => p.commentCount))⟩

/-! ## Batch ingestion result parsing (DIME-AI-DB/pipeline_batch_process.py,
`_process_results` lines 1573–1627 and `_parse_response_text` lines
1629–1712)

`str.splitlines` and the single-line `csv.reader` are modelled over
their ASCII behaviour (the unicode line separators `\x85`, ` `,
` ` etc. are outside the modelled input range). -/

def splitLinesChars : List Char → List Char → List String
  | [], cur => if cur.isEmpty then [] else [String.mk cur.reverse]
  | '\r' :: '\n' :: rest, cur => String.mk cur.reverse :: splitLinesChars rest []
  | '\n' :: rest, cur => String.mk cur.reverse :: splitLinesChars rest []
  | '\r' :: rest, cur => String.mk cur.reverse :: splitLinesChars rest []
  | c :: rest, cur => splitLinesChars rest (c :: cur)

def splitLines (s : String) : List String :=
  splitLinesChars s.data []

/-- `candidate_line`: the first line containing a comma, stripped;
otherwise the whole stripped text. -/
def candidateLine (text : String) : String :=
  let t := stripWs text
  match (splitLines t).find? (fun l => l.data.contains ',') with
  | some l => stripWs l
  | none => t

/-- One row of `csv.reader([line])` with the default dialect: fields
split on commas outside quotes; a `"` at field start opens a quoted
region in which `""` is a literal quote; characters after a closing
quote are appended literally (non-strict mode).  The input line carries
no newline (it came from `splitlines`). -/
inductive CsvMode where
  | fieldStart
  | unquoted
  | quoted
  | quoteInQuoted

def csvParse : List Char → CsvMode → List Char → List String
  | [], _, cur => [String.mk cur.reverse]
  | c :: rest, CsvMode.fieldStart, cur =>
    if c = ',' then String.mk cur.reverse :: csvParse rest CsvMode.fieldStart []
    else if c = '"' then csvParse rest CsvMode.quoted cur
    else csvParse rest CsvMode.unquoted (c :: cur)
  | c :: rest, CsvMode.unquoted, cur =>
    if c = ',' then String.mk cur.reverse :: csvParse rest CsvMode.fieldStart []
    else csvParse rest CsvMode.unquoted (c :: cur)
  | c :: rest, CsvMode.quoted, cur =>
    if c = '"' then csvParse rest CsvMode.quoteInQuoted cur
    else csvParse rest CsvMode.quoted (c :: cur)
  | c :: rest, CsvMode.quoteInQuoted, cur =>
    if c = '"' then csvParse rest CsvMode.quoted ('"' :: cur)
    else if c = ',' then String.mk cur.reverse :: csvParse rest CsvMode.fieldStart []
    else csvParse rest CsvMode.unquoted (c :: cur)

def csvFields (line : String) : List String :=
  csvParse line.data CsvMode.fieldStart []

/-- `round(float)` with no digits: Python rounds half to even.  The
fractional part `q - floor q = rem / den` is compared with `1/2` through
integer arithmetic (`2*rem` versus `den`). -/
def roundHalfEven (q : ℚ) : Int :=
  let f := q.floor
  let rem := q.num - f * (q.den : Int)
  if 2 * rem < (q.den : Int) then f
  else if (q.den : Int) < 2 * rem then f + 1
  else if f % 2 = 0 then f else f + 1

/-- `parse_score`: strip, `int(round(float(raw)))`, clamp to `[0, 10]`;
empty or unparseable input gives `None`. -/
def parseScore (raw : String) : Option Int :=
  let r := stripWs raw
  if r = "" then none
  else
    match parseFloatQ r with
    | none => none
    | some q => some (max 0 (min 10 (roundHalfEven q)))

structure ParsedRow where
  individualVsOrg : Option Int
  generationalAppeal : Option Int
  professionalization : Option Int
  relationshipStatus : Option Int
  location : String
  ethnicity : String
  age : String
  occupation : String
  keywords : List String
  processingError : String
deriving DecidableEq

def emptyRowWith (err : String) : ParsedRow :=
  ⟨none, none, none, none, "", "", "", "", List.replicate 10 "", err⟩

/-- `_parse_response_text`.  The `csv_parse_error` branch (the reader
itself raising) cannot fire for a single in-memory line and is not
modelled. -/
def parseResponseText (text : String) : ParsedRow :=
  if text = "" then emptyRowWith "empty_response"
  else
    let values := csvFields (candidateLine text)
    if values.length < 18 then
      emptyRowWith ("unexpected_value_count:" ++ toString values.length)
    else
      let scoreAt : Nat → Option Int := fun i => parseScore (values.getD i "")
      ⟨scoreAt 0, scoreAt 1, scoreAt 2, scoreAt 3,
        stripWs (values.getD 4 ""), stripWs (values.getD 5 ""),
        stripWs (values.getD 6 ""), stripWs (values.getD 7 ""),
        ((values.drop 8).take 10).map stripWs,
        if (scoreAt 0).isSome && (scoreAt 1).isSome && (scoreAt 2).isSome &&
            (scoreAt 3).isSome then ""
        else "missing_scores"⟩

structure OutMsgPart where
  ptype : String
  text : String
deriving DecidableEq

structure OutputItem where
  otype : String
  content : List OutMsgPart
deriving DecidableEq

/-- The text-extraction loop of `_process_results`: for each output of
type `message`, the first `output_text` part overwrites `text_content`
(there is no `break` out of the outer loop, so a later message wins). -/
def extractText (outputs : List OutputItem) : String :=
  outputs.foldl (fun acc o =>
    if o.otype = "message" then
      match o.content.find? (fun p => p.ptype = "output_text") with
      | some p => p.text
      | none => acc
    else acc) ""

structure LineResponse where
  statusCode : Int
  outputs : List OutputItem
deriving DecidableEq

structure LinePayload where
  customId : String
  response : Option LineResponse
  errorInfo : Option String
deriving DecidableEq

structure ResultRow where
  lanceDbId : String
  row : ParsedRow
  rawResponse : String
  sourceBatch : String
  promptFile : String
deriving DecidableEq

/-- `custom_id.replace("profile-", "") if custom_id.startswith("profile-")
else ""` (`replace` removes every occurrence). -/
def lanceIdOfCustom (customId : String) : String :=
  if strStartsWith customId "profile-" then strReplace customId "profile-" "" else ""

def padZeros3 (n : Nat) : String :=
  if n < 10 then "00" ++ toString n
  else if n < 100 then "0" ++ toString n
  else toString n

/-- One iteration of the `_process_results` line loop, for a line whose
JSON decoded into `payload`.  `dump` abstracts `json.dumps` for the
non-200 raw capture. -/
def processLine (dump : LinePayload → String) (chunkIndex : Nat)
    (promptFileName : String) (payload : LinePayload) : ResultRow :=
  let lanceId := lanceIdOfCustom payload.customId
  let sourceBatch := "batch_" ++ padZeros3 chunkIndex
  let errText :=
    match payload.errorInfo with
    | some e => e
    | none =>
      match payload.response with
      | some r => toString r.statusCode
      | none => "None"
  let errRow : ResultRow :=
    ⟨lanceId, emptyRowWith ("api_error:" ++ errText), (dump payload).take 500,
      sourceBatch, promptFileName⟩
  match payload.response with
  | some r =>
    if r.statusCode = 200 then
      let text := extractText r.outputs
      ⟨lanceId, parseResponseText text, text, sourceBatch, promptFileName⟩
    else errRow
  | none => errRow

/-! ## SSRF-guarded image proxy (services/brightdata/app/api/v1/images.py)

DNS resolution and the address classification of Python's `ipaddress`
module are external collaborators: a resolver maps a hostname to the
classification flags of each resolved address (`none` for a
`getaddrinfo` failure; an inner `none` for an address string
`ip_address` rejects). -/

structure IPInfo where
  isPrivateAddr : Bool
  isLoopback : Bool
  isLinkLocal : Bool
  isReserved : Bool
  isMulticast : Bool
deriving DecidableEq

def ipIsBlocked (ip : IPInfo) : Bool :=
  ip.isPrivateAddr || ip.isLoopback || ip.isLinkLocal || ip.isReserved || ip.isMulticast

def allowedImageHosts : List String := ["cdninstagram.com", "fna.fbcdn.net", "instagram.com"]

/-- `_is_allowed_host`: exact match or dot-suffix match against the
allow-list. -/
def isAllowedHost (hostname : String) : Bool :=
  allowedImageHosts.any (fun pat => hostname = pat || strEndsWith hostname ("." ++ pat))

/-- `_is_public_hostname`: resolution failure blocks; every resolved
address must parse and be non-private, non-loopback, non-link-local,
non-reserved and non-multicast. -/
def isPublicHostname (resolve : String → Option (List (Option IPInfo)))
    (hostname : String) : Bool :=
  match resolve hostname with
  | none => false
  | some addrs =>
    addrs.all (fun a =>
      match a with
      | none => false
      | some ip => !ipIsBlocked ip)

structure ParsedUrl where
  raw : String
  scheme : String
  hostname : String
deriving DecidableEq

inductive FetchFailure where
  | timeout
  | requestError (msg : String)
deriving DecidableEq

structure FetchResponse where
  historyHosts : List String
  finalHost : String
  statusCode : Int
deriving DecidableEq

structure HttpError where
  status : Int
  detail : String
deriving DecidableEq

def redirectChainCheck (resolve : String → Option (List (Option IPInfo))) :
    List String → Option HttpError
  | [] => none
  | h :: rest =>
    let host := strToLower h
    if host = "" then some ⟨400, "Invalid redirect host"⟩
    else if !isAllowedHost host then some ⟨403, "Redirected to disallowed host"⟩
    else if !isPublicHostname resolve host then some ⟨403, "Redirected to blocked host"⟩
    else redirectChainCheck resolve rest

/-- `_validate_redirect_chain`: every request in `history` plus the final
one is re-checked. -/
def validateRedirectChain (resolve : String → Option (List (Option IPInfo)))
    (resp : FetchResponse) : Option HttpError :=
  redirectChainCheck resolve (resp.historyHosts ++ [resp.finalHost])

/-- `proxy_image` (lines 169–239): guard the URL, then fetch (outcome
abstracted as an input, since redirects are followed by the HTTP client)
and validate the redirect chain before streaming; `Except.ok` is the
streamed response, `Except.error` an HTTP refusal. -/
def proxyImage (resolve : String → Option (List (Option IPInfo)))
    (url : ParsedUrl) (fetch : Except FetchFailure FetchResponse) :
    Except HttpError Unit :=
  if url.raw = "" then Except.error ⟨400, "No URL provided"⟩
  else if ¬(url.scheme = "http" ∨ url.scheme = "https") then
    Except.error ⟨400, "Invalid URL scheme"⟩
  else
    let hostname := strToLower url.hostname
    if hostname = "" then Except.error ⟨400, "Invalid URL host"⟩
    else if !isAllowedHost hostname then Except.error ⟨403, "Invalid domain"⟩
    else if !isPublicHostname resolve hostname then
      Except.error ⟨403, "Blocked host address"⟩
    else
      match fetch with
      | Except.error FetchFailure.timeout => Except.error ⟨408, "Request timeout"⟩
      | Except.error (FetchFailure.requestError m) => Except.error ⟨502, m⟩
      | Except.ok resp =>
        match validateRedirectChain resolve resp with
        | some e => Except.error e
        | none =>
          if resp.statusCode ≠ 200 then
            Except.error ⟨resp.statusCode, "Failed to fetch image"⟩
          else Except.ok ()

/-! ## Helper lemmas -/

theorem refreshAggregate_error (chunks : List (Except String (String × List ImageRefreshResult))) :
    (∃ e, Except.error e ∈ chunks) →
      ∃ e, refreshAggregate chunks = Except.error e := by
  induction chunks with
  | nil =>
    intro h
    rcases h with ⟨e, he⟩
    simp at he
  | cons c rest ih =>
    intro h
    cases c with
    | error e => exact ⟨e, rfl⟩
    | ok p =>
      rcases p with ⟨sid, rs⟩
      rcases h with ⟨e, he⟩
      rcases List.mem_cons.mp he with he | he
      · exact absurd he (by simp)
      · rcases ih ⟨e, he⟩ with ⟨e', he'⟩
        refine ⟨e', ?_⟩
        simp only [refreshAggregate, he']

theorem refreshAggregate_ok (chunks : List (Except String (String × List ImageRefreshResult)))
    (sids : List String) (rs : List ImageRefreshResult)
    (h : refreshAggregate chunks = Except.ok (sids, rs)) :
    rs = okChunkResults chunks := by
  induction chunks generalizing sids rs with
  | nil =>
    simp only [refreshAggregate] at h
    cases h
    simp [okChunkResults]
  | cons c rest ih =>
    cases c with
    | error e => simp [refreshAggregate] at h
    | ok p =>
      rcases p with ⟨sid, rs0⟩
      simp only [refreshAggregate] at h
      cases hrec : refreshAggregate rest with
      | error e => rw [hrec] at h; simp at h
      | ok q =>
        rcases q with ⟨sids', rs'⟩
        rw [hrec] at h
        cases h
        have := ih sids' rs' hrec
        simp [okChunkResults, this]

/-! ## Claim theorems -/

/-- C1 counterexample: a vendor-reported `failed` status makes the chunk
lifecycle raise, and `refresh_profiles` then propagates that error for
the whole call — the successful second chunk's results are *not*
returned as a partial success. -/
theorem brightdata_chunk_failure_cex :
    clientRefreshOutcome (Except.ok "s1") ["running", "failed"] =
      some (Except.error "BrightData snapshot s1 failed") ∧
    refreshProfilesWorker
        [Except.error "BrightData snapshot s1 failed",
         Except.ok ("s2", [⟨"alice", true, none, none⟩])] =
      Except.error "BrightData snapshot s1 failed" := by
  exact ⟨rfl, rfl⟩

/-- C1 (amended): a failure of any chunk's snapshot lifecycle aborts the
whole `refresh_profiles` call with that error — no partial aggregate is
returned; per-handle partial success exists only when every chunk
succeeds, in which case the results are the concatenation of the chunks'
per-handle results with their summary. -/
theorem brightdata_chunk_failure_aborts_refresh
    (chunks : List (Except String (String × List ImageRefreshResult))) :
    ((∃ e, Except.error e ∈ chunks) →
      ∃ e, refreshProfilesWorker chunks = Except.error e) ∧
    (∀ out, refreshProfilesWorker chunks = Except.ok out →
      out.results = okChunkResults chunks ∧
      out.summary = summariseResults out.results) := by
  constructor
  · intro h
    rcases refreshAggregate_error chunks h with ⟨e, he⟩

    exact ⟨e, by simp [refreshProfilesWorker, he]⟩
  · intro out hout
    unfold refreshProfilesWorker at hout
    cases hagg : refreshAggregate chunks with
    | error e => rw [hagg] at hout; simp at hout
    | ok p =>
      rcases p with ⟨sids, rs⟩
      rw [hagg] at hout
      cases hout
      exact ⟨refreshAggregate_ok chunks sids rs hagg, rfl⟩

/-- C1 witness. -/
theorem brightdata_chunk_failure_aborts_refresh_witness :
    ∃ e, refreshProfilesWorker [Except.error "boom"] = Except.error e :=
  (brightdata_chunk_failure_aborts_refresh [Except.error "boom"]).1
    ⟨"boom", List.mem_singleton.mpr rfl⟩

/-- C2: with `run_brightdata = true` and `run_llm = true`, the profiles
handed to the LLM fit-scoring stage are exactly those whose normalized
key is in the (lowered) BrightData success-key set — so every scored
profile's key is in the set — and an empty success-key set means the
stage is never invoked. -/
theorem pipeline_llm_inputs_within_success_set (profiles : List CreatorProfile)
    (successKeys : List String) :
    (∀ inputs, llmStageInputs true profiles successKeys = some inputs →
      inputs = profiles.filter
        (fun p => (successKeys.map strToLower).contains (normalizedProfileKey p)) ∧
      ∀ p ∈ inputs,
        normalizedProfileKey p ∈ successKeys.map strToLower) ∧
    (successKeys = [] → llmStageInputs true profiles successKeys = none) := by
  constructor
  · intro inputs h
    unfold llmStageInputs at h
    by_cases hk : successKeys.map strToLower = []
    · simp only [hk, if_true, ne_eq, not_true_eq_false, if_false, ite_self] at h
      simp [List.isEmpty] at h
    · simp only [if_pos rfl, ne_eq, hk, not_false_eq_true, if_true] at h
      by_cases hempty :
          (profiles.filter (fun p =>
            (successKeys.map strToLower).contains (normalizedProfileKey p))).isEmpty
      · rw [if_pos hempty] at h
        simp at h
      · rw [if_neg hempty] at h
        cases h
        refine ⟨rfl, ?_⟩
        intro p hp
        have hmem := List.mem_filter.mp hp
        exact List.elem_iff.mp hmem.2
  · intro h
    subst h
    rfl

/-- C2 witness. -/
theorem pipeline_llm_inputs_within_success_set_witness :
    [(⟨"instagram", "alice", "u"⟩ : CreatorProfile)] =
      [(⟨"instagram", "alice", "u"⟩ : CreatorProfile),
        ⟨"instagram", "bob", "u2"⟩].filter
        (fun p => (["instagram:alice"].map strToLower).contains
          (normalizedProfileKey p)) ∧
    ∀ p ∈ [(⟨"instagram", "alice", "u"⟩ : CreatorProfile)],
      normalizedProfileKey p ∈ ["instagram:alice"].map strToLower :=
  (pipeline_llm_inputs_within_success_set
      [⟨"instagram", "alice", "u"⟩, ⟨"instagram", "bob", "u2"⟩]
      ["instagram:alice"]).1
    [⟨"instagram", "alice", "u"⟩] (by decide)

/-- C8: a subscriber attaching to a job already in a terminal state
(`finished`/`failed`) gets a plan that replays exactly the recorded event
history, attaches no live queue, and the iterator therefore yields the
history once, in order, independent of any live feed — the stream closes
without blocking. -/
theorem terminal_stream_replays_history_and_closes
    (jobs : List (String × JobEntry)) (jobId : String) (e : JobEntry)
    (hfind : lookupJob jobs jobId = some e)
    (hterm : isTerminalStatus e.status = true) :
    streamJobEvents jobs jobId = some ⟨e.events, false⟩ ∧
    ∀ liveFeed, iteratorOutput ⟨e.events, false⟩ liveFeed = e.events := by
  constructor
  · simp [streamJobEvents, hfind, hterm]
  · intro liveFeed
    simp [iteratorOutput]

/-- C8 witness. -/
theorem terminal_stream_replays_history_and_closes_witness :
    streamJobEvents [("j", ⟨"j", "finished", [⟨"queued", "t0"⟩, ⟨"finished", "t1"⟩]⟩)] "j" =
      some ⟨[⟨"queued", "t0"⟩, ⟨"finished", "t1"⟩], false⟩ ∧
    ∀ liveFeed,
      iteratorOutput ⟨[⟨"queued", "t0"⟩, ⟨"finished", "t1"⟩], false⟩ liveFeed =
        [⟨"queued", "t0"⟩, ⟨"finished", "t1"⟩] :=
  terminal_stream_replays_history_and_closes
    [("j", ⟨"j", "finished", [⟨"queued", "t0"⟩, ⟨"finished", "t1"⟩]⟩)] "j"
    ⟨"j", "finished", [⟨"queued", "t0"⟩, ⟨"finished", "t1"⟩]⟩ (by decide) (by decide)

theorem mem_finaliseEntries_hybrid (entries : List FacetEntry) (w : SearchWeights)
    (limit : Nat) (r : SearchRecord) (h : r ∈ finaliseEntries entries w limit false) :
    ∃ e ∈ entries,
      r = ⟨e.lanceId, e.profileSimilarity, e.postsSimilarity, e.lexicalScoreRaw,
        (if 0 < maxLexical entries then e.lexicalScoreRaw / maxLexical entries else 0),
        w.profile * e.profileSimilarity + w.content * e.postsSimilarity +
          w.keyword *
            (if 0 < maxLexical entries then e.lexicalScoreRaw / maxLexical entries else 0)⟩ := by
  unfold finaliseEntries at h
  by_cases he : entries.isEmpty = true
  · rw [if_pos he] at h
    simp at h
  · rw [if_neg he] at h
    have h1 := (List.take_sublist (max 1 limit) _).subset h
    have h2 := (perm_pySortOnDesc (fun r : SearchRecord => r.combinedScore) _).mem_iff.mp h1
    rcases List.mem_filterMap.mp h2 with ⟨e, hee, hf⟩
    simp only [Bool.false_and, Bool.false_eq_true, if_false, Option.some.injEq] at hf
    exact ⟨e, hee, hf.symm⟩

/-- C3: with the default hybrid weights (0.40 profile, 0.25 posts, 0.35
keyword — already summing to 1, so normalisation is the identity), every
finalised record's combined score is exactly the weighted sum of its
profile similarity, posts similarity and max-normalised lexical score;
the result list is sorted descending by combined score and truncated to
the requested limit. -/
theorem hybrid_combined_score_contract (entries : List FacetEntry) (limit : Nat)
    (hlim : 1 ≤ limit) :
    SearchWeights.normalised hybridDefaultWeights = hybridDefaultWeights ∧
    hybridDefaultWeights.keyword + hybridDefaultWeights.profile +
      hybridDefaultWeights.content = 1 ∧
    (finaliseEntries entries (SearchWeights.normalised hybridDefaultWeights) limit false).length ≤
      limit ∧
    List.Pairwise (fun a b => b.combinedScore ≤ a.combinedScore)
      (finaliseEntries entries (SearchWeights.normalised hybridDefaultWeights) limit false) ∧
    ∀ r ∈ finaliseEntries entries (SearchWeights.normalised hybridDefaultWeights) limit false,
      r.combinedScore =
        (40 : ℚ)/100 * r.profileSimilarity + (25 : ℚ)/100 * r.postsSimilarity +
          (35 : ℚ)/100 * r.keywordSimilarity ∧
      r.keywordSimilarity =
        (if 0 < maxLexical entries then r.bm25FtsScore / maxLexical entries else 0) := by
  have hw : SearchWeights.normalised hybridDefaultWeights = hybridDefaultWeights := by
    unfold SearchWeights.normalised hybridDefaultWeights
    norm_num
  rw [hw]
  refine ⟨rfl, by unfold hybridDefaultWeights; norm_num, ?_, ?_, ?_⟩
  · unfold finaliseEntries
    by_cases he : entries.isEmpty = true
    · rw [if_pos he]
      simp
    · rw [if_neg he]
      calc (List.take (max 1 limit) _).length ≤ max 1 limit := List.length_take_le _ _
        _ = limit := Nat.max_eq_right hlim
  · unfold finaliseEntries
    by_cases he : entries.isEmpty = true
    · rw [if_pos he]
      simp
    · rw [if_neg he]
      exact List.Pairwise.sublist (List.take_sublist _ _)
        (sorted_pySortOnDesc (fun r : SearchRecord => r.combinedScore) _)
  · intro r hr
    rcases mem_finaliseEntries_hybrid entries hybridDefaultWeights limit r hr with ⟨e, he, hre⟩
    subst hre
    refine ⟨?_, rfl⟩
    norm_num [hybridDefaultWeights]

/-- C3 witness. -/
theorem hybrid_combined_score_contract_witness :
    SearchWeights.normalised hybridDefaultWeights = hybridDefaultWeights ∧
    hybridDefaultWeights.keyword + hybridDefaultWeights.profile +
      hybridDefaultWeights.content = 1 ∧
    (finaliseEntries [⟨"a", 1/2, 1/2, 1⟩, ⟨"b", 1, 0, 1/2⟩]
        (SearchWeights.normalised hybridDefaultWeights) 5 false).length ≤ 5 ∧
    List.Pairwise (fun a b => b.combinedScore ≤ a.combinedScore)
      (finaliseEntries [⟨"a", 1/2, 1/2, 1⟩, ⟨"b", 1, 0, 1/2⟩]
        (SearchWeights.normalised hybridDefaultWeights) 5 false) ∧
    ∀ r ∈ finaliseEntries [⟨"a", 1/2, 1/2, 1⟩, ⟨"b", 1, 0, 1/2⟩]
        (SearchWeights.normalised hybridDefaultWeights) 5 false,
      r.combinedScore =
        (40 : ℚ)/100 * r.profileSimilarity + (25 : ℚ)/100 * r.postsSimilarity +
          (35 : ℚ)/100 * r.keywordSimilarity ∧
      r.keywordSimilarity =
        (if 0 < maxLexical [⟨"a", 1/2, 1/2, 1⟩, ⟨"b", 1, 0, 1/2⟩] then
          r.bm25FtsScore / maxLexical [⟨"a", 1/2, 1/2, 1⟩, ⟨"b", 1, 0, 1/2⟩] else 0) :=
  hybrid_combined_score_contract [⟨"a", 1/2, 1/2, 1⟩, ⟨"b", 1, 0, 1/2⟩] 5 (by decide)

/-- C10: with a set `top_k` smaller than the document count, the rerank
endpoint hands the upstream reranker exactly the first `top_k` documents
(the whole result is invariant under dropping the rest), and the
response's `top_k` echo is the requested value — so a document at
position `top_k` or later is never seen by the reranker. -/
theorem rerank_truncates_documents_before_upstream
    (u : List String → PyVal) (q : String) (documents : List String) (topK : Nat)
    (h1 : 0 < topK) (h2 : topK < documents.length) :
    truncatedDocs documents topK = documents.take topK ∧
    (truncatedDocs documents topK).length = topK ∧
    rerankDocuments u q documents topK = rerankDocuments u q (documents.take topK) topK ∧
    ∀ r, rerankDocuments u q documents topK = Except.ok r → r.topK = topK := by
  have hne : topK ≠ 0 := Nat.pos_iff_ne_zero.mp h1
  have ht : truncatedDocs documents topK = documents.take topK := by
    unfold truncatedDocs
    rw [if_pos hne]
  have hd : truncatedDocs (documents.take topK) topK = truncatedDocs documents topK := by
    unfold truncatedDocs
    rw [if_pos hne, if_pos hne, List.take_take, Nat.min_self]
  refine ⟨ht, ?_, ?_, ?_⟩
  · rw [ht, List.length_take]
    exact Nat.min_eq_left (Nat.le_of_lt h2)
  · unfold rerankDocuments
    rw [hd]
  · intro r hr
    simp only [rerankDocuments] at hr
    cases ha : rerankAsync u q (truncatedDocs documents topK) with
    | error e => rw [ha] at hr; simp at hr
    | ok ranking =>
      rw [ha] at hr
      simp only [Except.ok.injEq] at hr
      rw [← hr]
      simp [hne]

/-- C10 witness. -/
theorem rerank_truncates_documents_before_upstream_witness :
    truncatedDocs ["a", "b", "c"] 2 = ["a", "b", "c"].take 2 ∧
    (truncatedDocs ["a", "b", "c"] 2).length = 2 ∧
    rerankDocuments (fun _ => PyVal.nullVal) "q" ["a", "b", "c"] 2 =
      rerankDocuments (fun _ => PyVal.nullVal) "q" (["a", "b", "c"].take 2) 2 ∧
    ∀ r, rerankDocuments (fun _ => PyVal.nullVal) "q" ["a", "b", "c"] 2 = Except.ok r →
      r.topK = 2 :=
  rerank_truncates_documents_before_upstream (fun _ => PyVal.nullVal) "q"
    ["a", "b", "c"] 2 (by decide) (by decide)

theorem isPublicHostname_spec (resolve : String → Option (List (Option IPInfo)))
    (h : String) (hp : isPublicHostname resolve h = true) :
    ∃ addrs, resolve h = some addrs ∧
      ∀ a ∈ addrs, ∃ ip, a = some ip ∧ ipIsBlocked ip = false := by
  unfold isPublicHostname at hp
  cases hr : resolve h with
  | none => rw [hr] at hp; simp at hp
  | some addrs =>
    rw [hr] at hp
    refine ⟨addrs, rfl, ?_⟩
    intro a ha
    have hall := List.all_eq_true.mp hp a ha
    cases a with
    | none => simp at hall
    | some ip =>
      refine ⟨ip, rfl, ?_⟩
      simpa using hall

theorem redirectChainCheck_none_spec (resolve : String → Option (List (Option IPInfo))) :
    ∀ hosts, redirectChainCheck resolve hosts = none →
      ∀ host ∈ hosts, strToLower host ≠ "" ∧
        isAllowedHost (strToLower host) = true ∧
        isPublicHostname resolve (strToLower host) = true := by
  intro hosts
  induction hosts with
  | nil =>
    intro _ host hh
    simp at hh
  | cons x rest ih =>
    intro h host hh
    simp only [redirectChainCheck] at h
    by_cases h1 : strToLower x = ""
    · rw [if_pos h1] at h
      simp at h
    · rw [if_neg h1] at h
      cases hA : isAllowedHost (strToLower x) with
      | false => rw [hA] at h; simp at h
      | true =>
        rw [hA] at h
        simp only [Bool.not_true, Bool.false_eq_true, if_false] at h
        cases hP : isPublicHostname resolve (strToLower x) with
        | false => rw [hP] at h; simp at h
        | true =>
          rw [hP] at h
          simp only [Bool.not_true, Bool.false_eq_true, if_false] at h
          rcases List.mem_cons.mp hh with hh | hh
          · subst hh
            exact ⟨h1, hA, hP⟩
          · exact ih h host hh

/-- C9: a proxied image fetch only succeeds (streams content) when the
URL scheme is `http`/`https`, the lowered hostname matches the allow-list
and resolves exclusively to non-private, non-loopback, non-link-local,
non-reserved, non-multicast addresses, and every host in the redirect
chain (history plus final request) passes the same allow-list and
public-address checks before the 200 body is streamed. -/
theorem proxy_image_ssrf_guard (resolve : String → Option (List (Option IPInfo)))
    (url : ParsedUrl) (fetch : Except FetchFailure FetchResponse)
    (h : proxyImage resolve url fetch = Except.ok ()) :
    (url.scheme = "http" ∨ url.scheme = "https") ∧
    strToLower url.hostname ≠ "" ∧
    isAllowedHost (strToLower url.hostname) = true ∧
    (∃ addrs, resolve (strToLower url.hostname) = some addrs ∧
      ∀ a ∈ addrs, ∃ ip, a = some ip ∧ ipIsBlocked ip = false) ∧
    ∃ resp, fetch = Except.ok resp ∧ resp.statusCode = 200 ∧
      ∀ host ∈ resp.historyHosts ++ [resp.finalHost],
        isAllowedHost (strToLower host) = true ∧
        ∃ addrs, resolve (strToLower host) = some addrs ∧
          ∀ a ∈ addrs, ∃ ip, a = some ip ∧ ipIsBlocked ip = false := by
  unfold proxyImage at h
  by_cases hraw : url.raw = ""
  · rw [if_pos hraw] at h
    simp at h
  · rw [if_neg hraw] at h
    by_cases hscheme : url.scheme = "http" ∨ url.scheme = "https"
    · rw [if_neg (not_not_intro hscheme)] at h
      by_cases hhost : strToLower url.hostname = ""
      · rw [if_pos hhost] at h
        simp at h
      · rw [if_neg hhost] at h
        cases hA : isAllowedHost (strToLower url.hostname) with
        | false =>
          rw [hA] at h
          simp at h
        | true =>
          rw [hA] at h
          simp only [Bool.not_true, Bool.false_eq_true, if_false] at h
          cases hP : isPublicHostname resolve (strToLower url.hostname) with
          | false =>
            rw [hP] at h
            simp at h
          | true =>
            rw [hP] at h
            simp only [Bool.not_true, Bool.false_eq_true, if_false] at h
            refine ⟨hscheme, hhost, rfl, isPublicHostname_spec resolve _ hP, ?_⟩
            cases fetch with
            | error f => cases f <;> simp at h
            | ok resp =>
              dsimp only at h
              cases hv : validateRedirectChain resolve resp with
              | some e => rw [hv] at h; simp at h
              | none =>
                rw [hv] at h
                by_cases hs : resp.statusCode ≠ 200
                · rw [if_pos hs] at h
                  simp at h
                · rw [if_neg hs] at h
                  refine ⟨resp, rfl, not_not.mp hs, ?_⟩
                  intro host hh
                  have := redirectChainCheck_none_spec resolve
                    (resp.historyHosts ++ [resp.finalHost]) hv host hh
                  exact ⟨this.2.1, isPublicHostname_spec resolve _ this.2.2⟩
    · rw [if_pos hscheme] at h
      simp at h

/-- C9 witness. -/
theorem proxy_image_ssrf_guard_witness :
    ("https" = "http" ∨ "https" = "https") ∧
    strToLower "cdninstagram.com" ≠ "" ∧
    isAllowedHost (strToLower "cdninstagram.com") = true ∧
    (∃ addrs,
      (fun (_ : String) => some [some (⟨false, false, false, false, false⟩ : IPInfo)])
          (strToLower "cdninstagram.com") = some addrs ∧
      ∀ a ∈ addrs, ∃ ip, a = some ip ∧ ipIsBlocked ip = false) ∧
    ∃ resp,
      (Except.ok (⟨[], "cdninstagram.com", 200⟩ : FetchResponse) :
        Except FetchFailure FetchResponse) = Except.ok resp ∧
      resp.statusCode = 200 ∧
      ∀ host ∈ resp.historyHosts ++ [resp.finalHost],
        isAllowedHost (strToLower host) = true ∧
        ∃ addrs,
          (fun (_ : String) => some [some (⟨false, false, false, false, false⟩ : IPInfo)])
              (strToLower host) = some addrs ∧
          ∀ a ∈ addrs, ∃ ip, a = some ip ∧ ipIsBlocked ip = false := by
  have h := proxy_image_ssrf_guard
    (fun _ => some [some ⟨false, false, false, false, false⟩])
    ⟨"https://cdninstagram.com/x.jpg", "https", "cdninstagram.com"⟩
    (Except.ok ⟨[], "cdninstagram.com", 200⟩) rfl
  exact h

theorem parseResponse_ok_sorted (data : PyVal) (l : List (Int × ℚ))
    (h : parseResponse data = Except.ok l) :
    List.Pairwise (fun a b => b.2 ≤ a.2) l := by
  unfold parseResponse at h
  cases hc : parseCandidates (extractCandidates data) with
  | error e => rw [hc] at h; simp at h
  | ok r0 =>
    rw [hc] at h
    cases h
    exact sorted_pySortOnDesc (fun p : Int × ℚ => p.2) r0

theorem all_isNumVal_map_num (scores : List ℚ) :
    (scores.map PyVal.num).all isNumVal = true := by
  induction scores with
  | nil => rfl
  | cons s rest ih => simpa [isNumVal] using ih

def enumIntFrom (n : Nat) (scores : List ℚ) : List (Int × ℚ) :=
  (List.enumFrom n scores).map (fun p => ((p.1 : Int), p.2))

theorem enumScores_map_num (scores : List ℚ) :
    enumScores (scores.map PyVal.num) = enumIntFrom 0 scores := by
  unfold enumScores enumIntFrom
  show ((List.enumFrom 0 (scores.map PyVal.num)).map _) = _
  suffices hgen : ∀ n, ((List.enumFrom n (scores.map PyVal.num)).map (fun p =>
      ((p.1 : Int), match p.2 with | PyVal.num q => q | _ => 0))) =
      (List.enumFrom n scores).map (fun p => ((p.1 : Int), p.2)) from hgen 0
  intro n
  induction scores generalizing n with
  | nil => rfl
  | cons s rest ih => simp [List.enumFrom, ih]

theorem enumIntFrom_length (n : Nat) (scores : List ℚ) :
    (enumIntFrom n scores).length = scores.length := by
  simp [enumIntFrom]

theorem enumIntFrom_bounds (scores : List ℚ) :
    ∀ n p, p ∈ enumIntFrom n scores → (n : Int) ≤ p.1 ∧ p.1 < (n : Int) + scores.length := by
  induction scores with
  | nil =>
    intro n p hp
    simp [enumIntFrom] at hp
  | cons s rest ih =>
    intro n p hp
    simp only [enumIntFrom, List.enumFrom, List.map_cons, List.mem_cons] at hp
    rcases hp with hp | hp
    · subst hp
      simp only [List.length_cons]
      constructor
      · exact le_refl _
      · push_cast
        omega
    · have hb := ih (n + 1) p hp
      simp only [List.length_cons]
      push_cast at hb ⊢
      omega

theorem enumIntFrom_pairwise_lt (scores : List ℚ) :
    ∀ n, List.Pairwise (fun a b => a.1 < b.1) (enumIntFrom n scores) := by
  induction scores with
  | nil =>
    intro n
    simp [enumIntFrom]
  | cons s rest ih =>
    intro n
    simp only [enumIntFrom, List.enumFrom, List.map_cons]
    refine List.pairwise_cons.mpr ⟨?_, ih (n + 1)⟩
    intro b hb
    have := (enumIntFrom_bounds rest (n + 1) b hb).1
    push_cast at this ⊢
    omega

/-- C4 counterexample: the endpoint passes upstream-provided indices
through unvalidated — an upstream response whose entries both carry
`index: 5` against two documents yields a ranking with duplicate
out-of-range indices. -/
theorem rerank_unvalidated_indices_cex :
    rerankDocuments
        (fun _ => PyVal.dict [("results", PyVal.listVal
          [PyVal.dict [("index", PyVal.num 5), ("score", PyVal.num 1)],
           PyVal.dict [("index", PyVal.num 5), ("score", PyVal.num 0)]])])
        "q" ["a", "b"] 5 =
      Except.ok ⟨[(5, 1), (5, 0)], 5, 2⟩ ∧
    ¬ List.Pairwise (fun p q => p.1 ≠ q.1) [((5 : Int), (1 : ℚ)), (5, 0)] ∧
    ¬ (∀ p ∈ [((5 : Int), (1 : ℚ)), (5, 0)], 0 ≤ p.1 ∧ p.1 < 2) :=
  ⟨rfl, by decide, by decide⟩

/-- C4 (amended): the returned ranking is always sorted descending by
score, but index bounds, uniqueness and the length cap hold only for the
bare-scores upstream shape (scores aligned to the truncated documents);
object- and pair-shaped responses contribute upstream indices and entry
counts unvalidated. -/
theorem rerank_sorted_and_bare_scores_contract (u : List String → PyVal)
    (q : String) (documents : List String) (topK : Nat) (r : RerankResponse)
    (h : rerankDocuments u q documents topK = Except.ok r) :
    List.Pairwise (fun a b => b.2 ≤ a.2) r.ranking ∧
    ∀ scores : List ℚ,
      u (truncatedDocs documents topK) = PyVal.listVal (scores.map PyVal.num) →
      r.ranking.length ≤ scores.length ∧
      List.Pairwise (fun a b => a.1 ≠ b.1) r.ranking ∧
      ∀ p ∈ r.ranking, 0 ≤ p.1 ∧ p.1 < (scores.length : Int) := by
  simp only [rerankDocuments] at h
  cases ha : rerankAsync u q (truncatedDocs documents topK) with
  | error e => rw [ha] at h; simp at h
  | ok ranking =>
    rw [ha] at h
    simp only [Except.ok.injEq] at h
    have hrank : r.ranking = ranking := by rw [← h]
    unfold rerankAsync at ha
    by_cases hshort : q = "" ∨ truncatedDocs documents topK = []
    · rw [if_pos hshort] at ha
      cases ha
      rw [hrank]
      refine ⟨List.Pairwise.nil, ?_⟩
      intro scores _
      simp
    · rw [if_neg hshort] at ha
      constructor
      · rw [hrank]
        exact parseResponse_ok_sorted _ _ ha
      · intro scores hu
        rw [hu] at ha
        unfold parseResponse at ha
        have hcand : extractCandidates (PyVal.listVal (scores.map PyVal.num)) =
            some (PyVal.listVal (scores.map PyVal.num)) := rfl
        rw [hcand] at ha
        have hparse : parseCandidates (some (PyVal.listVal (scores.map PyVal.num))) =
            Except.ok (enumIntFrom 0 scores) := by
          unfold parseCandidates
          cases hs : scores with
          | nil => rfl
          | cons s rest =>
            simp only [List.map_cons]
            rw [show ((PyVal.num s :: rest.map PyVal.num).all isNumVal) = true from by
              have := all_isNumVal_map_num (s :: rest)
              simpa using this]
            simp only [if_true]
            rw [show enumScores (PyVal.num s :: rest.map PyVal.num) =
                enumIntFrom 0 (s :: rest) from by
              have := enumScores_map_num (s :: rest)
              simpa using this]
        rw [hparse] at ha
        simp only [Except.ok.injEq] at ha
        have hperm : ranking.Perm (enumIntFrom 0 scores) := by
          rw [← ha]
          exact perm_pySortOnDesc _ _
        rw [hrank]
        refine ⟨?_, ?_, ?_⟩
        · rw [hperm.length_eq, enumIntFrom_length]
        · have hne : List.Pairwise (fun a b : Int × ℚ => a.1 ≠ b.1)
              (enumIntFrom 0 scores) :=
            (enumIntFrom_pairwise_lt scores 0).imp (fun hlt => ne_of_lt hlt)
          exact (hperm.pairwise_iff (fun hab => Ne.symm hab)).mpr hne
        · intro p hp
          have hmem := hperm.mem_iff.mp hp
          have := enumIntFrom_bounds scores 0 p hmem
          constructor
          · simpa using this.1
          · simpa using this.2

/-- C4 witness. -/
theorem rerank_sorted_and_bare_scores_contract_witness :
    List.Pairwise
      (fun a b : Int × ℚ => b.2 ≤ a.2)
      (RerankResponse.ranking ⟨[(0, 1)], 1, 1⟩) ∧
    ∀ scores : List ℚ,
      (fun (_ : List String) => PyVal.listVal [PyVal.num 1]) (truncatedDocs ["a"] 1) =
        PyVal.listVal (scores.map PyVal.num) →
      (RerankResponse.ranking ⟨[(0, 1)], 1, 1⟩).length ≤ scores.length ∧
      List.Pairwise (fun a b : Int × ℚ => a.1 ≠ b.1)
        (RerankResponse.ranking ⟨[(0, 1)], 1, 1⟩) ∧
      ∀ p ∈ RerankResponse.ranking ⟨[(0, 1)], 1, 1⟩,
        0 ≤ p.1 ∧ p.1 < (scores.length : Int) :=
  rerank_sorted_and_bare_scores_contract
    (fun _ => PyVal.listVal [PyVal.num 1]) "q" ["a"] 1 ⟨[(0, 1)], 1, 1⟩ rfl

theorem pairwise_of_forall_right {α : Type} {R : α → α → Prop} {P : α → Prop}
    (l : List α) (hall : ∀ b ∈ l, P b) (himp : ∀ a b, P b → R a b) :
    List.Pairwise R l := by
  induction l with
  | nil => exact List.Pairwise.nil
  | cons x rest ih =>
    refine List.pairwise_cons.mpr ⟨?_, ?_⟩
    · intro b hb
      exact himp x b (hall b (List.mem_cons_of_mem x hb))
    · exact ih (fun b hb => hall b (List.mem_cons_of_mem x hb))

theorem taggedPosts_snd (posts : List PostRecord) :
    ∀ x ∈ taggedPosts posts, x.2 = parseTsVal x.1.timestamp ∧ x.1 ∈ posts := by
  intro x hx
  rcases List.mem_map.mp hx with ⟨p, hp, hxp⟩
  subst hxp
  exact ⟨rfl, hp⟩

/-- The pairwise timestamp-descending relation of the spec: whenever two
window entries both carry parseable timestamps, the earlier entry's
timestamp is at least the later one's. -/
def TsDescRel (a b : PostRecord) : Prop :=
  ∀ ka kb, parseTsVal a.timestamp = some ka → parseTsVal b.timestamp = some kb → kb ≤ ka

theorem statsWindow_spec (posts : List PostRecord) :
    (statsWindow posts).length ≤ 10 ∧
    List.Pairwise TsDescRel (statsWindow posts) ∧
    ∀ p ∈ statsWindow posts, p ∈ posts := by
  have hkeyfun := taggedPosts_snd posts
  unfold statsWindow
  set tagged := taggedPosts posts with htag
  set withTs := tagged.filter (fun x => x.2.isSome) with hwts
  set withoutTs := tagged.filter (fun x => x.2.isNone) with hwots
  have hsortedMem : ∀ x ∈ pySortOnDesc (fun x : PostRecord × Option Int => x.2.getD 0) withTs,
      x.2 = parseTsVal x.1.timestamp ∧ x.2.isSome = true ∧ x.1 ∈ posts := by
    intro x hx
    have hx' := (perm_pySortOnDesc _ _).mem_iff.mp hx
    have hfil := List.mem_filter.mp hx'
    have hk := hkeyfun x hfil.1
    exact ⟨hk.1, hfil.2, hk.2⟩
  have hwoMem : ∀ x ∈ withoutTs, x.2 = parseTsVal x.1.timestamp ∧ x.2.isNone = true ∧ x.1 ∈ posts := by
    intro x hx
    have hfil := List.mem_filter.mp hx
    have hk := hkeyfun x hfil.1
    exact ⟨hk.1, hfil.2, hk.2⟩
  refine ⟨?_, ?_, ?_⟩
  · exact le_trans (List.length_take_le _ _) (le_refl 10)
  · apply List.Pairwise.sublist (List.take_sublist _ _)
    apply List.pairwise_append.mpr
    refine ⟨?_, ?_, ?_⟩
    · apply List.pairwise_map.mpr
      apply List.Pairwise.imp_of_mem ?_ (sorted_pySortOnDesc
        (fun x : PostRecord × Option Int => x.2.getD 0) withTs)
      intro a b ha hb hle ka kb hka hkb
      have hpa := hsortedMem a ha
      have hpb := hsortedMem b hb
      have hka' : a.2 = some ka := by rw [hpa.1, hka]
      have hkb' : b.2 = some kb := by rw [hpb.1, hkb]
      have : (b.2.getD 0) ≤ (a.2.getD 0) := hle
      rw [hka', hkb'] at this
      simpa using this
    · apply List.pairwise_map.mpr
      apply pairwise_of_forall_right
        (P := fun x : PostRecord × Option Int => parseTsVal x.1.timestamp = none)
      · intro b hb
        have hpb := hwoMem b hb
        rw [← hpb.1]
        exact Option.isNone_iff_eq_none.mp hpb.2.1
      · intro a b hbnone ka kb hka hkb
        rw [hbnone] at hkb
        cases hkb
    · intro a ha b hb
      rcases List.mem_map.mp ha with ⟨x, hx, hxa⟩
      rcases List.mem_map.mp hb with ⟨y, hy, hyb⟩
      subst hxa
      subst hyb
      intro ka kb hka hkb
      have hpy := hwoMem y hy
      rw [← hpy.1] at hkb
      rw [Option.isNone_iff_eq_none.mp hpy.2.1] at hkb
      cases hkb
  · intro p hp
    have hp' := (List.take_sublist _ _).subset hp
    rcases List.mem_append.mp hp' with hp' | hp'
    · rcases List.mem_map.mp hp' with ⟨x, hx, hxp⟩
      subst hxp
      exact (hsortedMem x hx).2.2
    · rcases List.mem_map.mp hp' with ⟨x, hx, hxp⟩
      subst hxp
      exact (hwoMem x hx).2.2

/-- C5 counterexample: the normalized `posts` field keeps all eleven
posts of an eleven-post record (no most-recent-10 trim), and two posts
with parseable timestamps in ascending order are kept in input order
(not re-sorted descending). -/
theorem posts_not_trimmed_or_sorted_cex :
    (normalizePosts "instagram"
        (PyVal.listVal (List.replicate 11 (PyVal.dict [("id", PyVal.num 1)])))).length = 11 ∧
    ¬ ((11 : Nat) ≤ 10) ∧
    ((normalizePosts "instagram"
        (PyVal.listVal
          [PyVal.dict [("datetime", PyVal.str "2024-01-01T00:00:00")],
           PyVal.dict [("datetime", PyVal.str "2024-02-01T00:00:00")]])).map
      (fun p => (parseTsVal p.timestamp).isSome)) = [true, true] ∧
    ((normalizePosts "instagram"
        (PyVal.listVal
          [PyVal.dict [("datetime", PyVal.str "2024-01-01T00:00:00")],
           PyVal.dict [("datetime", PyVal.str "2024-02-01T00:00:00")]])).map
      (fun p => (parseTsVal p.timestamp).getD 0)).getD 0 0 <
      ((normalizePosts "instagram"
        (PyVal.listVal
          [PyVal.dict [("datetime", PyVal.str "2024-01-01T00:00:00")],
           PyVal.dict [("datetime", PyVal.str "2024-02-01T00:00:00")]])).map
      (fun p => (parseTsVal p.timestamp).getD 0)).getD 1 0 := by
  refine ⟨?_, by decide, ?_, ?_⟩ <;> decide

/-- C5 (amended): normalization retains *all* posts (one per dict entry,
in input order, with no 10-cap and no sorting); only the derived
statistics are computed over the most-recent-10 window, which is the
timestamped posts sorted descending followed by the untimestamped ones in
input order, truncated to 10 — that window has length at most 10, is
pairwise timestamp-descending, draws only from the normalized posts, and
is exactly what the reel ratio (and medians) are computed over. -/
theorem posts_full_list_and_stats_window (platform : String) (entries : List PyVal)
    (posts : List PostRecord) :
    (normalizePosts platform (PyVal.listVal entries)).length =
      entries.countP (fun e => match e with | PyVal.dict _ => true | _ => false) ∧
    (statsWindow posts).length ≤ 10 ∧
    List.Pairwise TsDescRel (statsWindow posts) ∧
    (∀ p ∈ statsWindow posts, p ∈ posts) ∧
    (computePostStatistics posts).reelPostShareLast10 =
      (if (statsWindow posts).length = 0 then none
       else some ((((statsWindow posts).filter postIsReelLike).length : ℚ) /
         ((statsWindow posts).length : ℚ))) := by
  have hw := statsWindow_spec posts
  refine ⟨?_, hw.1, hw.2.1, hw.2.2, rfl⟩
  unfold normalizePosts
  induction entries with
  | nil => rfl
  | cons e rest ih =>
    cases e with
    | dict item => simpa [List.countP_cons] using ih
    | num q => simpa [List.countP_cons] using ih
    | str s => simpa [List.countP_cons] using ih
    | listVal l => simpa [List.countP_cons] using ih
    | nullVal => simpa [List.countP_cons] using ih

theorem subTagFuel_length_le (tag : List Char) :
    ∀ (fuel : Nat) (prev2 prev1 : Option Char) (cs : List Char),
      (subTagFuel tag fuel prev2 prev1 cs).length ≤ cs.length := by
  intro fuel
  induction fuel with
  | zero => intro prev2 prev1 cs; exact le_refl _
  | succ fuel ih =>
    intro prev2 prev1 cs
    cases cs with
    | nil => simp [subTagFuel]
    | cons c rest =>
      simp only [subTagFuel]
      by_cases hguard : (c = '#' && !lookbehindBlocks prev2 prev1) = true
      · rw [if_pos hguard]
        cases hm : matchAfterHash c tag rest with
        | some p =>
          rcases p with ⟨penult, lastC, rest2⟩
          have hlt := length_matchAfterHash tag rest c penult lastC rest2 hm
          have hle := ih (some penult) (some lastC) rest2
          simp only [List.length_cons]
          omega
        | none =>
          have hle := ih prev1 (some c) rest
          simp only [List.length_cons]
          omega
      · rw [if_neg hguard]
        have hle := ih prev1 (some c) rest
        simp only [List.length_cons]
        omega

theorem subTagFuel_eq_or_lt (tag : List Char) :
    ∀ (fuel : Nat) (prev2 prev1 : Option Char) (cs : List Char),
      subTagFuel tag fuel prev2 prev1 cs = cs ∨
        (subTagFuel tag fuel prev2 prev1 cs).length < cs.length := by
  intro fuel
  induction fuel with
  | zero => intro prev2 prev1 cs; exact Or.inl rfl
  | succ fuel ih =>
    intro prev2 prev1 cs
    cases cs with
    | nil => exact Or.inl (by simp [subTagFuel])
    | cons c rest =>
      simp only [subTagFuel]
      by_cases hguard : (c = '#' && !lookbehindBlocks prev2 prev1) = true
      · rw [if_pos hguard]
        cases hm : matchAfterHash c tag rest with
        | some p =>
          rcases p with ⟨penult, lastC, rest2⟩
          right
          have hlt := length_matchAfterHash tag rest c penult lastC rest2 hm
          have hle := subTagFuel_length_le tag fuel (some penult) (some lastC) rest2
          simp only [List.length_cons]
          omega
        | none =>
          rcases ih prev1 (some c) rest with h | h
          · exact Or.inl (by rw [h])
          · right
            simp only [List.length_cons]
            omega
      · rw [if_neg hguard]
        rcases ih prev1 (some c) rest with h | h
        · exact Or.inl (by rw [h])
        · right
          simp only [List.length_cons]
          omega

theorem subTagFuel_lt_of_match (tag : List Char) :
    ∀ (fuel : Nat) (prev2 prev1 : Option Char) (cs : List Char), cs.length ≤ fuel →
      containsTagMatchChars tag prev2 prev1 cs = true →
      (subTagFuel tag fuel prev2 prev1 cs).length < cs.length := by
  intro fuel
  induction fuel with
  | zero =>
    intro prev2 prev1 cs hfuel h
    have : cs = [] := List.length_eq_zero.mp (Nat.le_zero.mp hfuel)
    subst this
    simp [containsTagMatchChars] at h
  | succ fuel ih =>
    intro prev2 prev1 cs hfuel h
    cases cs with
    | nil => simp [containsTagMatchChars] at h
    | cons c rest =>
      have hfuel' : rest.length ≤ fuel := by
        simp only [List.length_cons] at hfuel
        omega
      simp only [subTagFuel]
      by_cases hguard : (c = '#' && !lookbehindBlocks prev2 prev1) = true
      · rw [if_pos hguard]
        cases hm : matchAfterHash c tag rest with
        | some p =>
          rcases p with ⟨penult, lastC, rest2⟩
          have hlt := length_matchAfterHash tag rest c penult lastC rest2 hm
          have hle := subTagFuel_length_le tag fuel (some penult) (some lastC) rest2
          simp only [List.length_cons]
          omega
        | none =>
          have hh : containsTagMatchChars tag prev1 (some c) rest = true := by
            simp only [containsTagMatchChars, hm, Option.isSome_none, Bool.and_false,
              Bool.false_or] at h
            exact h
          have := ih prev1 (some c) rest hfuel' hh
          simp only [List.length_cons]
          omega
      · rw [if_neg hguard]
        have hh : containsTagMatchChars tag prev1 (some c) rest = true := by
          simp only [containsTagMatchChars] at h
          rcases Bool.or_eq_true_iff.mp h with hcontra | h
          · exfalso
            rcases Bool.and_eq_true_iff.mp hcontra with ⟨h1, _⟩
            rcases Bool.and_eq_true_iff.mp h1 with ⟨h2, h3⟩
            exact hguard (Bool.and_eq_true_iff.mpr ⟨h2, h3⟩)
          · exact h
        have := ih prev1 (some c) rest hfuel' hh
        simp only [List.length_cons]
        omega

theorem collapseWsChars_length_le : ∀ (b : Bool) (cs : List Char),
    (collapseWsChars b cs).length ≤ cs.length := by
  intro b cs
  induction cs generalizing b with
  | nil => simp [collapseWsChars]
  | cons c rest ih =>
    by_cases hws : isWsChar c = true
    · cases b with
      | true =>
        simp only [collapseWsChars, hws, if_true]
        exact le_trans (ih true) (by simp)
      | false =>
        simp only [collapseWsChars, hws, if_true, if_false]
        simpa using ih true
    · simp only [collapseWsChars, hws, if_false]
      simpa using ih false

theorem collapseWs_length_le (s : String) : (collapseWs s).length ≤ s.length := by
  show (collapseWsChars false s.data).length ≤ s.data.length
  exact collapseWsChars_length_le false s.data

theorem stripWs_length_le (s : String) : (stripWs s).length ≤ s.length := by
  show (stripWsChars s.data).length ≤ s.data.length
  unfold stripWsChars
  calc (((s.data.dropWhile isWsChar).reverse.dropWhile isWsChar).reverse).length
      = ((s.data.dropWhile isWsChar).reverse.dropWhile isWsChar).length := by
        rw [List.length_reverse]
    _ ≤ (s.data.dropWhile isWsChar).reverse.length :=
        (List.dropWhile_sublist _).length_le
    _ = (s.data.dropWhile isWsChar).length := by rw [List.length_reverse]
    _ ≤ s.data.length := (List.dropWhile_sublist _).length_le

theorem subTag_length_le (tag s : String) : (subTag tag s).length ≤ s.length := by
  show (subTagFuel tag.data s.data.length none none s.data).length ≤ s.data.length
  exact subTagFuel_length_le tag.data s.data.length none none s.data

theorem subTag_eq_or_lt (tag s : String) :
    subTag tag s = s ∨ (subTag tag s).length < s.length := by
  rcases subTagFuel_eq_or_lt tag.data s.data.length none none s.data with h | h
  · left
    show String.mk (subTagFuel tag.data s.data.length none none s.data) = s
    rw [h]
  · right
    exact h

theorem subTag_lt_of_match (tag s : String) (h : containsTagMatch tag s = true) :
    (subTag tag s).length < s.length :=
  subTagFuel_lt_of_match tag.data s.data.length none none s.data (le_refl _) h

theorem foldl_subTag_length_le (tags : List String) :
    ∀ c : String, (tags.foldl (fun acc t => subTag t acc) c).length ≤ c.length := by
  induction tags with
  | nil => intro c; exact le_refl _
  | cons t ts ih =>
    intro c
    exact le_trans (ih (subTag t c)) (subTag_length_le t c)

theorem foldl_subTag_lt (tag : String) (tags : List String) :
    ∀ c : String, tag ∈ tags → containsTagMatch tag c = true →
      (tags.foldl (fun acc t => subTag t acc) c).length < c.length := by
  induction tags with
  | nil =>
    intro c htag _
    simp at htag
  | cons t ts ih =>
    intro c htag hmatch
    rcases List.mem_cons.mp htag with htag | htag
    · subst htag
      have hstrict : (subTag tag c).length < c.length :=
        subTag_lt_of_match tag c hmatch
      calc ((tag :: ts).foldl (fun acc t => subTag t acc) c).length
          = (ts.foldl (fun acc t => subTag t acc) (subTag tag c)).length := rfl
        _ ≤ (subTag tag c).length := foldl_subTag_length_le ts _
        _ < c.length := hstrict
    · rcases subTag_eq_or_lt t c with heq | hlt
      · calc ((t :: ts).foldl (fun acc t => subTag t acc) c).length
            = (ts.foldl (fun acc t => subTag t acc) (subTag t c)).length := rfl
          _ = (ts.foldl (fun acc t => subTag t acc) c).length := by rw [heq]
          _ < c.length := ih c htag hmatch
      · calc ((t :: ts).foldl (fun acc t => subTag t acc) c).length
            = (ts.foldl (fun acc t => subTag t acc) (subTag t c)).length := rfl
          _ ≤ (subTag t c).length := foldl_subTag_length_le ts _
          _ < c.length := hlt

theorem containsTagMatch_ne_empty (tag s : String) (h : containsTagMatch tag s = true) :
    s ≠ "" := by
  intro hs
  subst hs
  simp [containsTagMatch, containsTagMatchChars] at h

/-- C6 counterexample, two divergences from the claim.  (1) Single pass:
the caption `"##a a"` with hashtag `"a"` — the single match `#a` is
removed, but the leftover `#` joins the following `" a"`, and the
normalized caption `"# a"` still contains a case-insensitive,
whitespace-tolerant occurrence of `#a` while `"a"` remains in the
hashtags list.  (2) No leading word boundary: the pattern's raw-string
lookbehind `(?<!\\w)` matches the literal characters backslash-`w`, not
a word character, so the caption `"x#a #a"` loses BOTH occurrences —
including `#a` directly after the word character `x` — normalizing to
`"x"` instead of leaving `x#a` intact. -/
theorem hashtag_removal_cex :
    (normalizeOnePost "instagram"
        [("caption", PyVal.str "##a a"),
         ("hashtags", PyVal.listVal [PyVal.str "a"])]).hashtags = ["a"] ∧
    captionText (normalizeOnePost "instagram"
        [("caption", PyVal.str "##a a"),
         ("hashtags", PyVal.listVal [PyVal.str "a"])]) = "# a" ∧
    containsTagMatch "a" "# a" = true ∧
    containsTagMatch "a" "##a a" = true ∧
    captionText (normalizeOnePost "instagram"
        [("caption", PyVal.str "x#a #a"),
         ("hashtags", PyVal.listVal [PyVal.str "a"])]) = "x" := by
  refine ⟨?_, ?_, ?_, ?_, ?_⟩ <;> decide

/-- C6 (amended): when the decoded caption contains an occurrence of
`#T` for a tag `T` of the post's hashtags (case-insensitive, optional
whitespace after the `#`, trailing `\b` respected — but with NO leading
word-boundary check: the raw-string lookbehind `(?<!\\w)` only blocks a
literal backslash-`w` before the `#`), normalization removes matched
occurrences in a single left-to-right pass — the normalized caption is
strictly shorter than the decoded caption — and `T` stays in the
hashtags list; but because removal is a single pass, a fresh `#T`
occurrence formed by the text joined around a removed span can survive
in the normalized caption (see the counterexample). -/
theorem hashtag_removal_single_pass (platform : String)
    (item : List (String × PyVal)) (tag s : String)
    (hcap : decodedCaptionOf item = PyVal.str s)
    (htag : tag ∈ (normalizeOnePost platform item).hashtags)
    (hmatch : containsTagMatch tag s = true) :
    tag ∈ parseHashtags (pyToListOpt (firstNonEmptyKey item hashtagKeys)) ∧
    captionText (normalizeOnePost platform item) = cleanCaption s
      (parseHashtags (pyToListOpt (firstNonEmptyKey item hashtagKeys))) ∧
    (captionText (normalizeOnePost platform item)).length < s.length := by
  have htags : (normalizeOnePost platform item).hashtags =
      parseHashtags (pyToListOpt (firstNonEmptyKey item hashtagKeys)) := rfl
  rw [htags] at htag
  have hsne : s ≠ "" := containsTagMatch_ne_empty tag s hmatch
  have htagsne : parseHashtags (pyToListOpt (firstNonEmptyKey item hashtagKeys)) ≠ [] := by
    intro hnil
    rw [hnil] at htag
    simp at htag
  have hcaption : captionText (normalizeOnePost platform item) = cleanCaption s
      (parseHashtags (pyToListOpt (firstNonEmptyKey item hashtagKeys))) := by
    unfold normalizeOnePost captionText
    simp only [hcap]
  refine ⟨htag, hcaption, ?_⟩
  rw [hcaption]
  unfold cleanCaption
  rw [if_pos ⟨hsne, htagsne⟩]
  calc (stripWs (collapseWs ((parseHashtags
        (pyToListOpt (firstNonEmptyKey item hashtagKeys))).foldl
        (fun acc t => subTag t acc) s))).length
      ≤ (collapseWs ((parseHashtags
        (pyToListOpt (firstNonEmptyKey item hashtagKeys))).foldl
        (fun acc t => subTag t acc) s)).length := stripWs_length_le _
    _ ≤ (((parseHashtags (pyToListOpt (firstNonEmptyKey item hashtagKeys))).foldl
        (fun acc t => subTag t acc) s)).length := collapseWs_length_le _
    _ < s.length := foldl_subTag_lt tag _ s htag hmatch

/-- C6 witness. -/
theorem hashtag_removal_single_pass_witness :
    "a" ∈ parseHashtags (pyToListOpt (firstNonEmptyKey
      [("caption", PyVal.str "##a a"), ("hashtags", PyVal.listVal [PyVal.str "a"])]
      hashtagKeys)) ∧
    captionText (normalizeOnePost "instagram"
        [("caption", PyVal.str "##a a"), ("hashtags", PyVal.listVal [PyVal.str "a"])]) =
      cleanCaption "##a a" (parseHashtags (pyToListOpt (firstNonEmptyKey
        [("caption", PyVal.str "##a a"), ("hashtags", PyVal.listVal [PyVal.str "a"])]
        hashtagKeys))) ∧
    (captionText (normalizeOnePost "instagram"
        [("caption", PyVal.str "##a a"),
         ("hashtags", PyVal.listVal [PyVal.str "a"])])).length < ("##a a" : String).length :=
  hashtag_removal_single_pass "instagram"
    [("caption", PyVal.str "##a a"), ("hashtags", PyVal.listVal [PyVal.str "a"])]
    "a" "##a a" rfl (by decide) (by decide)

theorem append_ne_empty_left (s t : String) (hs : s.data ≠ []) : s ++ t ≠ "" := by
  intro h
  have hd := congrArg String.data h
  rw [String.data_append] at hd
  cases hdata : s.data with
  | nil => exact hs hdata
  | cons c cs =>
    rw [hdata] at hd
    simp at hd

/-- C7 counterexample: with two `message` outputs on a 200 line, the
extracted text is the *last* message's first `output_text`, not the
first message's — here the well-formed first answer is discarded and the
comma-less second text drives an `unexpected_value_count` error. -/
theorem batch_parser_last_message_cex :
    extractText
        [⟨"message", [⟨"output_text", "1,2,3,4,loc,eth,age,occ,k1,k2,k3,k4,k5,k6,k7,k8,k9,k10"⟩]⟩,
         ⟨"message", [⟨"output_text", "no commas here"⟩]⟩] = "no commas here" ∧
    ("no commas here" : String) ≠ "1,2,3,4,loc,eth,age,occ,k1,k2,k3,k4,k5,k6,k7,k8,k9,k10" ∧
    (parseResponseText "no commas here").processingError = "unexpected_value_count:1" ∧
    (parseResponseText "1,2,3,4,loc,eth,age,occ,k1,k2,k3,k4,k5,k6,k7,k8,k9,k10").processingError = "" ∧
    (parseResponseText
      "1,2,3,4,loc,eth,age,occ,k1,k2,k3,k4,k5,k6,k7,k8,k9,k10").individualVsOrg = some 1 := by
  refine ⟨?_, ?_, ?_, ?_, ?_⟩ <;> decide

/-- C7 (amended): on a 200-status line the text taken is the first
`output_text` part of the *last* message output (each message overwrites
the previous; for a single message this is its first `output_text`), the
raw text is preserved on the row, and the CSV parse behaves as claimed:
scores are rounded and clamped into `[0, 10]`; a blank `processing_error`
implies all four scores parsed; exactly ten keyword slots are always
produced; empty responses and short field counts set
`empty_response`/`unexpected_value_count` errors. -/
theorem batch_parser_contract :
    (∀ (pre : List OutputItem) (o : OutputItem) (p : OutMsgPart),
      o.otype = "message" →
      o.content.find? (fun x => x.ptype = "output_text") = some p →
      extractText (pre ++ [o]) = p.text) ∧
    (∀ (dump : LinePayload → String) (chunkIndex : Nat) (promptFileName : String)
        (payload : LinePayload) (r : LineResponse),
      payload.response = some r → r.statusCode = 200 →
      processLine dump chunkIndex promptFileName payload =
        ⟨lanceIdOfCustom payload.customId, parseResponseText (extractText r.outputs),
          extractText r.outputs, "batch_" ++ padZeros3 chunkIndex, promptFileName⟩) ∧
    (∀ (raw : String) (k : Int), parseScore raw = some k → 0 ≤ k ∧ k ≤ 10) ∧
    (∀ text : String, (parseResponseText text).processingError = "" →
      (parseResponseText text).individualVsOrg.isSome = true ∧
      (parseResponseText text).generationalAppeal.isSome = true ∧
      (parseResponseText text).professionalization.isSome = true ∧
      (parseResponseText text).relationshipStatus.isSome = true) ∧
    (∀ text : String, (parseResponseText text).keywords.length = 10) := by
  refine ⟨?_, ?_, ?_, ?_, ?_⟩
  · intro pre o p ho hfind
    unfold extractText
    rw [List.foldl_append]
    simp [ho, hfind]
  · intro dump chunkIndex promptFileName payload r hresp h200
    unfold processLine
    rw [hresp]
    dsimp only
    rw [if_pos h200]
  · intro raw k h
    unfold parseScore at h
    by_cases hempty : stripWs raw = ""
    · rw [if_pos hempty] at h
      cases h
    · rw [if_neg hempty] at h
      cases hq : parseFloatQ (stripWs raw) with
      | none => rw [hq] at h; cases h
      | some q =>
        rw [hq] at h
        simp only [Option.some.injEq] at h
        subst h
        constructor
        · exact le_max_left 0 _
        · exact max_le (by norm_num) (min_le_left 10 _)
  · intro text herr
    unfold parseResponseText at herr ⊢
    by_cases hempty : text = ""
    · rw [if_pos hempty] at herr
      exact absurd herr (by decide)
    · rw [if_neg hempty] at herr
      by_cases hlen : (csvFields (candidateLine text)).length < 18
      · rw [if_pos hlen] at herr
        exact absurd herr (append_ne_empty_left "unexpected_value_count:" _ (by decide))
      · rw [if_neg hlen] at herr
        rw [if_neg hempty, if_neg hlen]
        dsimp only at herr ⊢
        by_cases hall : ((parseScore ((csvFields (candidateLine text)).getD 0 "")).isSome &&
            (parseScore ((csvFields (candidateLine text)).getD 1 "")).isSome &&
            (parseScore ((csvFields (candidateLine text)).getD 2 "")).isSome &&
            (parseScore ((csvFields (candidateLine text)).getD 3 "")).isSome) = true
        · rcases Bool.and_eq_true_iff.mp hall with ⟨hall3, h3⟩
          rcases Bool.and_eq_true_iff.mp hall3 with ⟨hall2, h2⟩
          rcases Bool.and_eq_true_iff.mp hall2 with ⟨h0, h1⟩
          exact ⟨h0, h1, h2, h3⟩
        · rw [if_neg hall] at herr
          exact absurd herr (by decide)
  · intro text
    unfold parseResponseText
    by_cases hempty : text = ""
    · rw [if_pos hempty]
      rfl
    · rw [if_neg hempty]
      by_cases hlen : (csvFields (candidateLine text)).length < 18
      · rw [if_pos hlen]
        rfl
      · rw [if_neg hlen]
        dsimp only
        rw [List.length_map, List.length_take, List.length_drop]
        omega

/-- C7 witness. -/
theorem batch_parser_contract_witness :
    extractText ([] ++ [⟨"message", [⟨"output_text", "7,alpha"⟩]⟩]) = "7,alpha" ∧
    (0 ≤ (7 : Int) ∧ (7 : Int) ≤ 10) ∧
    (parseResponseText "").keywords.length = 10 :=
  ⟨batch_parser_contract.1 [] ⟨"message", [⟨"output_text", "7,alpha"⟩]⟩
      ⟨"output_text", "7,alpha"⟩ rfl rfl,
    batch_parser_contract.2.2.1 "7" 7 (by decide),
    batch_parser_contract.2.2.2.2 ""⟩

end PennyPlatform
